import Mathlib

/-!
Verification of the XAU/USD grid risk-analysis engine.

The repository contains two near-identical React entry points
(`src/App.tsx` and an unnamed variant); the numeric core of each is a
pure pipeline: a ladder generator (`table`), a position aggregator
(`analysis`), drawdown simulation (`simulateDrop`), a 20-iteration
binary-search margin-call solver (`findMarginCallPrice`) and an
equity-curve sampler.  JavaScript numbers are modelled as exact
rationals; `(+x.toFixed(d))` is modelled by `toFixed d : ℚ → ℚ`,
rounding to `d` decimal places with ties away from zero, which is the
rounding ECMAScript `Number.prototype.toFixed` performs (the spec
negates a negative argument before rounding, so decimal ties round
away from zero).
-/

/-- ECMAScript `toFixed`-style integer rounding: round half away from zero.
For `x ≥ 0` this is `round x` (half up); a negative argument is negated,
rounded, and negated back. -/
def jsRound (x : ℚ) : ℤ :=
  if x < 0 then -round (-x) else round x

/-- Model of `+(x.toFixed(d))`: round to `d` decimal places, ties away from zero. -/
def toFixed (d : ℕ) (x : ℚ) : ℚ :=
  (jsRound (x * 10 ^ d) : ℚ) / 10 ^ d

theorem round_le_round {x y : ℚ} (h : x ≤ y) : round x ≤ round y := by
  rw [round_eq, round_eq]
  exact Int.floor_le_floor (by linarith)

theorem round_nonneg {x : ℚ} (h : 0 ≤ x) : 0 ≤ round x := by
  have := round_le_round h
  simpa using this

theorem jsRound_mono {x y : ℚ} (h : x ≤ y) : jsRound x ≤ jsRound y := by
  unfold jsRound
  split_ifs with hx hy hy
  · have : -y ≤ -x := by linarith
    have := round_le_round this
    omega
  · have h1 : 0 ≤ round (-x) := round_nonneg (by linarith)
    have h2 : 0 ≤ round y := round_nonneg (by linarith)
    omega
  · exact absurd (lt_of_le_of_lt h hy) (by linarith)
  · exact round_le_round h

theorem jsRound_intCast (n : ℤ) : jsRound (n : ℚ) = n := by
  unfold jsRound
  split_ifs with h
  · rw [← Int.cast_neg, round_intCast]; ring
  · exact round_intCast n

theorem abs_jsRound_sub (x : ℚ) : |(jsRound x : ℚ) - x| ≤ 1 / 2 := by
  unfold jsRound
  split_ifs with h
  · push_cast
    have := abs_sub_round (-x)
    rw [abs_sub_comm] at this
    calc |-(round (-x) : ℚ) - x| = |(round (-x) : ℚ) - -x| := by rw [← abs_neg]; ring_nf
    _ ≤ 1 / 2 := this
  · rw [abs_sub_comm]; exact abs_sub_round x

/-- Shifting the argument down by at least one full unit strictly lowers the
rounded value: `jsRound (x - t) ≤ jsRound x - 1` whenever `1 ≤ t`. -/
theorem jsRound_sub_le {x t : ℚ} (ht : 1 ≤ t) : jsRound (x - t) ≤ jsRound x - 1 := by
  have key : jsRound (x - 1) ≤ jsRound x - 1 := by
    unfold jsRound
    split_ifs with h1 h2 h2
    · -- x - 1 < 0, x < 0
      have : round (1 - x) = round (-x) + 1 := by
        rw [show (1 - x : ℚ) = -x + 1 by ring, round_add_one]
      rw [show -(x - 1) = 1 - x by ring, this]
      omega
    · -- x - 1 < 0, 0 ≤ x  (so x ∈ [0,1))
      have hx0 : (0 : ℚ) ≤ x := le_of_not_lt h2
      have hx1 : x < 1 := by linarith
      rcases le_or_lt (1/2 : ℚ) x with hhalf | hhalf
      · -- round x ≥ 1 and round (1-x) ≥ 0
        have r1 : (1 : ℤ) ≤ round x := by
          have := round_le_round hhalf
          rwa [show round (1/2 : ℚ) = 1 by rw [round_eq]; norm_num] at this
        have r2 : (0 : ℤ) ≤ round (1 - x) := round_nonneg (by linarith)
        rw [show -(x - 1) = 1 - x by ring]
        omega
      · -- round x ≥ 0 and round (1-x) ≥ 1
        have r1 : (0 : ℤ) ≤ round x := round_nonneg hx0
        have r2 : (1 : ℤ) ≤ round (1 - x) := by
          have : (1/2 : ℚ) ≤ 1 - x := by linarith
          have := round_le_round this
          rwa [show round (1/2 : ℚ) = 1 by rw [round_eq]; norm_num] at this
        rw [show -(x - 1) = 1 - x by ring]
        omega
    · -- 0 ≤ x - 1 but x < 0: impossible
      exact absurd (by linarith : (0:ℚ) ≤ x - 1) (by linarith)
    · -- both nonnegative
      rw [show x - 1 = x - (1 : ℤ) by push_cast; ring, round_sub_int]
  calc jsRound (x - t) ≤ jsRound (x - 1) := jsRound_mono (by linarith)
  _ ≤ jsRound x - 1 := key

theorem toFixed_mono (d : ℕ) {x y : ℚ} (h : x ≤ y) : toFixed d x ≤ toFixed d y := by
  unfold toFixed
  have hp : (0 : ℚ) < 10 ^ d := by positivity
  have hm : jsRound (x * 10 ^ d) ≤ jsRound (y * 10 ^ d) :=
    jsRound_mono (by nlinarith)
  have : ((jsRound (x * 10 ^ d) : ℚ)) ≤ ((jsRound (y * 10 ^ d) : ℚ)) := by exact_mod_cast hm
  gcongr

theorem toFixed_eq_self {d : ℕ} {x : ℚ} (h : ∃ m : ℤ, x * 10 ^ d = m) :
    toFixed d x = x := by
  obtain ⟨m, hm⟩ := h
  unfold toFixed
  rw [hm, jsRound_intCast, ← hm]
  field_simp

theorem abs_toFixed_sub (d : ℕ) (x : ℚ) : |toFixed d x - x| ≤ 1 / (2 * 10 ^ d) := by
  unfold toFixed
  have hp : (0 : ℚ) < 10 ^ d := by positivity
  have h := abs_jsRound_sub (x * 10 ^ d)
  calc |(jsRound (x * 10 ^ d) : ℚ) / 10 ^ d - x|
      = |((jsRound (x * 10 ^ d) : ℚ) - x * 10 ^ d) / 10 ^ d| := by
        congr 1; field_simp; ring
    _ = |(jsRound (x * 10 ^ d) : ℚ) - x * 10 ^ d| / 10 ^ d := by
        rw [abs_div, abs_of_pos hp]
    _ ≤ (1 / 2) / 10 ^ d := by gcongr
    _ = 1 / (2 * 10 ^ d) := by ring

theorem toFixed_sub_le (d : ℕ) (x : ℚ) : toFixed d x - x ≤ 1 / (2 * 10 ^ d) :=
  le_trans (le_abs_self _) (abs_toFixed_sub d x)

theorem sub_toFixed_le (d : ℕ) (x : ℚ) : x - toFixed d x ≤ 1 / (2 * 10 ^ d) :=
  le_trans (le_abs_self _) (by rw [abs_sub_comm]; exact abs_toFixed_sub d x)

/-- Strategy parameters, named as the React state variables that hold them. -/
structure Params where
  gridStartPrice : ℚ
  currentPrice : ℚ
  step : ℚ
  lotSize : ℚ
  levels : ℤ
  tp : ℚ
  balanceUSC : ℚ
  leverage : ℚ
  contractSize : ℚ

/-- One row of the grid ladder, as pushed into `arr` by the `table` memo. -/
structure Row where
  idx : ℕ
  levelPrice : ℚ
  lotsAtThisLevel : ℚ
  cumulativeLots : ℚ
  totalOunces : ℚ
  notionalUSD : ℚ
  notionalUSC : ℚ
  margin : ℚ
  potentialProfitIfAllClosed : ℚ
  isTriggered : Bool

/-- Default row, standing in for JavaScript's out-of-bounds `undefined`
(never reached on the guarded paths). -/
def dRow : Row :=
  { idx := 0, levelPrice := 0, lotsAtThisLevel := 0, cumulativeLots := 0,
    totalOunces := 0, notionalUSD := 0, notionalUSC := 0, margin := 0,
    potentialProfitIfAllClosed := 0, isTriggered := false }

/-- `list[list.length - 1]` on a nonempty list. -/
def lastRow (l : List Row) : Row := l.getLastD dRow

/-- One sampled point of the projected equity curve. -/
structure CurvePoint where
  price : ℚ
  equity : ℚ

/-- Risk tier, as assigned by the `riskLevel` cascade. -/
inductive RiskLevel where
  | LOW | MODERATE | HIGH | EXTREME
deriving DecidableEq

/-- Colour paired with the risk tier. -/
inductive RiskColor where
  | green | yellow | orange | red
deriving DecidableEq

namespace App1

/-- One iteration body of the `table` loop in `src/App.tsx` (lines 18-48):
the ladder row for loop index `i`. -/
def mkRow (par : Params) (i : ℕ) : Row :=
  let levelPrice := toFixed 2 (par.gridStartPrice - i * par.step)
  let lotsAtThisLevel := toFixed 4 par.lotSize
  let cumulativeLots := toFixed 4 (lotsAtThisLevel * (i + 1))
  let totalOunces := toFixed 2 (cumulativeLots * par.contractSize)
  let notionalUSD := toFixed 2 (levelPrice * totalOunces)
  let notionalUSC := toFixed 2 (notionalUSD * 100)
  let margin := toFixed 2 (notionalUSD / par.leverage * 100)
  let profitPerLotUSC := toFixed 2 (par.tp * par.contractSize * 100)
  let potentialProfitIfAllClosed := toFixed 2 (lotsAtThisLevel * (i + 1) * profitPerLotUSC)
  { idx := i + 1, levelPrice := levelPrice, lotsAtThisLevel := lotsAtThisLevel,
    cumulativeLots := cumulativeLots, totalOunces := totalOunces,
    notionalUSD := notionalUSD, notionalUSC := notionalUSC, margin := margin,
    potentialProfitIfAllClosed := potentialProfitIfAllClosed,
    isTriggered := decide (par.currentPrice ≤ levelPrice) }

/-- The grid ladder: `for (let i = 0; i < levels; i++) arr.push(...)`.
A non-positive `levels` yields the empty ladder. -/
def table (par : Params) : List Row :=
  (List.range par.levels.toNat).map (mkRow par)

/-- `table.filter(r => p <= r.levelPrice)`: levels triggered at reference price `p`. -/
def triggeredAt (tbl : List Row) (p : ℚ) : List Row :=
  tbl.filter fun r => decide (p ≤ r.levelPrice)

/-- `reduce((s, r) => s + r.levelPrice * r.lotsAtThisLevel, 0)`. -/
def sumPxL (l : List Row) : ℚ :=
  l.foldl (fun s r => s + r.levelPrice * r.lotsAtThisLevel) 0

/-- `table.filter(r => r.isTriggered)`. -/
def triggeredLevels (par : Params) : List Row :=
  (table par).filter fun r => r.isTriggered

/-- `triggeredLevels.length`. -/
def numTriggered (par : Params) : ℕ :=
  (triggeredLevels par).length

/-- `triggeredLevels[triggeredLevels.length - 1]`. -/
def lastTriggered (par : Params) : Row :=
  lastRow (triggeredLevels par)

def totalLots (par : Params) : ℚ := (lastTriggered par).cumulativeLots

def totalOunces (par : Params) : ℚ := (lastTriggered par).totalOunces

def currentNotionalUSD (par : Params) : ℚ :=
  toFixed 2 (par.currentPrice * totalOunces par)

def notionalUSC (par : Params) : ℚ :=
  toFixed 2 (currentNotionalUSD par * 100)

def usedMargin (par : Params) : ℚ :=
  toFixed 2 (currentNotionalUSD par / par.leverage * 100)

/-- `usedMargin / (balanceUSC || 1) * 100`, rounded to cents.  The JavaScript
`||` falls back to `1` exactly when `balanceUSC` is falsy, i.e. equal to `0`. -/
def marginPercent (par : Params) : ℚ :=
  toFixed 2 (usedMargin par / (if par.balanceUSC = 0 then 1 else par.balanceUSC) * 100)

def profitPerLotUSC (par : Params) : ℚ :=
  toFixed 2 (par.tp * par.contractSize * 100)

def totalPotentialProfit (par : Params) : ℚ :=
  toFixed 2 (totalLots par * profitPerLotUSC par)

/-- Size-weighted average entry of the triggered levels (raw, unrounded). -/
def avgEntry (par : Params) : ℚ :=
  sumPxL (triggeredLevels par) / totalLots par

def avgEntryFixed (par : Params) : ℚ := toFixed 2 (avgEntry par)

def currentFloatingPL (par : Params) : ℚ :=
  toFixed 2 ((par.currentPrice - avgEntry par) * totalOunces par * 100)

def breakEvenPrice (par : Params) : ℚ := avgEntryFixed par

def profitTargetPrice (par : Params) : ℚ := toFixed 2 (avgEntryFixed par + par.tp)

/-- `simulateDrop` (lines 93-109): floating P/L if price fell by `dropAmount`. -/
def simulateDrop (par : Params) (dropAmount : ℚ) : ℚ :=
  let newPrice := par.currentPrice - dropAmount
  let newTriggered := triggeredAt (table par) newPrice
  if newTriggered.length = 0 then 0
  else
    let lastNew := lastRow newTriggered
    let newTotalOunces := lastNew.totalOunces
    let newTotalLots := lastNew.cumulativeLots
    let newAvgEntry := sumPxL newTriggered / newTotalLots
    toFixed 2 ((newPrice - newAvgEntry) * newTotalOunces * 100)

/-- `stopOutLevel = 0.50`. -/
def stopOutLevel : ℚ := 1 / 2

/-- Equity at price `p`: `balanceUSC + (p - avgEntryAtMid) * totalOuncesAtMid * 100`,
computed over the levels triggered at `p` as in the solver body. -/
def equityAt (par : Params) (p : ℚ) : ℚ :=
  let tr := triggeredAt (table par) p
  let lastAt := lastRow tr
  let totalLotsAt := lastAt.cumulativeLots
  let avgEntryAt := sumPxL tr / totalLotsAt
  par.balanceUSC + (p - avgEntryAt) * lastAt.totalOunces * 100

/-- Used margin at price `p`: `(p * totalOuncesAtMid / leverage) * 100`. -/
def usedMarginAt (par : Params) (p : ℚ) : ℚ :=
  let lastAt := lastRow (triggeredAt (table par) p)
  p * lastAt.totalOunces / par.leverage * 100

/-- The stop-out inequality tested by the solver at price `p`:
`equityAtMid <= usedMarginAtMid * stopOutLevel`. -/
def stopOutHolds (par : Params) (p : ℚ) : Prop :=
  equityAt par p ≤ usedMarginAt par p * stopOutLevel

instance (par : Params) (p : ℚ) : Decidable (stopOutHolds par p) := by
  unfold stopOutHolds; infer_instance

/-- The 20-iteration bisection loop of `findMarginCallPrice`, with the loop
state `(low, high, marginCallPrice)` made explicit.  The first branch is the
`triggeredAtMid.length === 0` "safe" case. -/
def mcGo (par : Params) : ℕ → ℚ → ℚ → ℚ → ℚ
  | 0, _low, _high, res => res
  | n + 1, low, high, res =>
    let mid := (low + high) / 2
    if (triggeredAt (table par) mid).length = 0 then
      mcGo par n low mid res
    else if stopOutHolds par mid then
      mcGo par n mid high mid
    else
      mcGo par n low mid res

/-- `findMarginCallPrice` (lines 119-158): bisection over `[0, currentPrice]`,
20 iterations, result rounded to cents. -/
def findMarginCallPrice (par : Params) : ℚ :=
  toFixed 2 (mcGo par 20 0 par.currentPrice 0)

def maxSafeDrop (par : Params) : ℚ :=
  toFixed 2 (par.currentPrice - findMarginCallPrice par)

def currentEquity (par : Params) : ℚ :=
  toFixed 2 (par.balanceUSC + currentFloatingPL par)

/-- The risk-tier cascade on `marginPercent` (lines 164-176). -/
def riskLevel (par : Params) : RiskLevel :=
  if marginPercent par > 70 then .EXTREME
  else if marginPercent par > 50 then .HIGH
  else if marginPercent par > 30 then .MODERATE
  else .LOW

def riskColor (par : Params) : RiskColor :=
  if marginPercent par > 70 then .red
  else if marginPercent par > 50 then .orange
  else if marginPercent par > 30 then .yellow
  else .green

/-- `equityCurveData` (lines 201-228): 51 points from `currentPrice` down to
`max(0, marginCallPrice - 50)`. -/
def equityCurveData (par : Params) : List CurvePoint :=
  let startP := par.currentPrice
  let endP := max 0 (findMarginCallPrice par - 50)
  let stepSize := (startP - endP) / 50
  (List.range 51).map fun (i : ℕ) =>
    let p := startP - (i : ℚ) * stepSize
    let triggeredAtP := triggeredAt (table par) p
    let equityAtP :=
      if 0 < triggeredAtP.length then
        let lastAtP := lastRow triggeredAtP
        let totalLotsAtP := lastAtP.cumulativeLots
        let avgEntryAtP := sumPxL triggeredAtP / totalLotsAtP
        let floatingPLAtP := (p - avgEntryAtP) * lastAtP.totalOunces * 100
        par.balanceUSC + floatingPLAtP
      else
        par.balanceUSC
    { price := p, equity := equityAtP }

/-- The full position snapshot returned when at least one level is triggered. -/
structure Snap where
  numTriggered : ℕ
  totalLots : ℚ
  totalOunces : ℚ
  usedMargin : ℚ
  notionalUSC : ℚ
  marginPercent : ℚ
  totalPotentialProfit : ℚ
  avgEntryFixed : ℚ
  currentFloatingPL : ℚ
  breakEvenPrice : ℚ
  profitTargetPrice : ℚ
  drop10 : ℚ
  drop25 : ℚ
  drop50 : ℚ
  drop100 : ℚ
  marginCallPrice : ℚ
  maxSafeDrop : ℚ
  riskLevel : RiskLevel
  riskColor : RiskColor
  lowestTriggered : ℚ
  currentEquity : ℚ
  equityCurveData : List CurvePoint

/-- The aggregate result: `null` for an empty table, the `noPositions: true`
sentinel when no level is triggered, otherwise the snapshot. -/
inductive Analysis where
  | noPosition
  | position (s : Snap)

/-- The `analysis` memo (lines 50-230). -/
def analysis (par : Params) : Option Analysis :=
  if (table par).length = 0 then none
  else if numTriggered par = 0 then some .noPosition
  else some (.position
    { numTriggered := numTriggered par
      totalLots := totalLots par
      totalOunces := totalOunces par
      usedMargin := usedMargin par
      notionalUSC := notionalUSC par
      marginPercent := marginPercent par
      totalPotentialProfit := totalPotentialProfit par
      avgEntryFixed := avgEntryFixed par
      currentFloatingPL := currentFloatingPL par
      breakEvenPrice := breakEvenPrice par
      profitTargetPrice := profitTargetPrice par
      drop10 := simulateDrop par 10
      drop25 := simulateDrop par 25
      drop50 := simulateDrop par 50
      drop100 := simulateDrop par 100
      marginCallPrice := findMarginCallPrice par
      maxSafeDrop := maxSafeDrop par
      riskLevel := riskLevel par
      riskColor := riskColor par
      lowestTriggered := (lastTriggered par).levelPrice
      currentEquity := currentEquity par
      equityCurveData := equityCurveData par })

end App1

namespace App2

/-- One iteration body of the `table` loop in the unnamed variant
(`src/unnamed/part_000`, lines 109-139). -/
def mkRow (par : Params) (i : ℕ) : Row :=
  let levelPrice := toFixed 2 (par.gridStartPrice - i * par.step)
  let lotsAtThisLevel := toFixed 4 par.lotSize
  let cumulativeLots := toFixed 4 (lotsAtThisLevel * (i + 1))
  let totalOunces := toFixed 2 (cumulativeLots * par.contractSize)
  let notionalUSD := toFixed 2 (levelPrice * totalOunces)
  let notionalUSC := toFixed 2 (notionalUSD * 100)
  let margin := toFixed 2 (notionalUSD / par.leverage * 100)
  let profitPerLotUSC := toFixed 2 (par.tp * par.contractSize * 100)
  let potentialProfitIfAllClosed := toFixed 2 (lotsAtThisLevel * (i + 1) * profitPerLotUSC)
  { idx := i + 1, levelPrice := levelPrice, lotsAtThisLevel := lotsAtThisLevel,
    cumulativeLots := cumulativeLots, totalOunces := totalOunces,
    notionalUSD := notionalUSD, notionalUSC := notionalUSC, margin := margin,
    potentialProfitIfAllClosed := potentialProfitIfAllClosed,
    isTriggered := decide (par.currentPrice ≤ levelPrice) }

def table (par : Params) : List Row :=
  (List.range par.levels.toNat).map (mkRow par)

def triggeredAt (tbl : List Row) (p : ℚ) : List Row :=
  tbl.filter fun r => decide (p ≤ r.levelPrice)

def sumPxL (l : List Row) : ℚ :=
  l.foldl (fun s r => s + r.levelPrice * r.lotsAtThisLevel) 0

def triggeredLevels (par : Params) : List Row :=
  (table par).filter fun r => r.isTriggered

def numTriggered (par : Params) : ℕ :=
  (triggeredLevels par).length

def lastTriggered (par : Params) : Row :=
  lastRow (triggeredLevels par)

def totalLots (par : Params) : ℚ := (lastTriggered par).cumulativeLots

def totalOunces (par : Params) : ℚ := (lastTriggered par).totalOunces

def currentNotionalUSD (par : Params) : ℚ :=
  toFixed 2 (par.currentPrice * totalOunces par)

def notionalUSC (par : Params) : ℚ :=
  toFixed 2 (currentNotionalUSD par * 100)

def usedMargin (par : Params) : ℚ :=
  toFixed 2 (currentNotionalUSD par / par.leverage * 100)

def marginPercent (par : Params) : ℚ :=
  toFixed 2 (usedMargin par / (if par.balanceUSC = 0 then 1 else par.balanceUSC) * 100)

def profitPerLotUSC (par : Params) : ℚ :=
  toFixed 2 (par.tp * par.contractSize * 100)

def totalPotentialProfit (par : Params) : ℚ :=
  toFixed 2 (totalLots par * profitPerLotUSC par)

def avgEntry (par : Params) : ℚ :=
  sumPxL (triggeredLevels par) / totalLots par

def avgEntryFixed (par : Params) : ℚ := toFixed 2 (avgEntry par)

def currentFloatingPL (par : Params) : ℚ :=
  toFixed 2 ((par.currentPrice - avgEntry par) * totalOunces par * 100)

def breakEvenPrice (par : Params) : ℚ := avgEntryFixed par

def profitTargetPrice (par : Params) : ℚ := toFixed 2 (avgEntryFixed par + par.tp)

def simulateDrop (par : Params) (dropAmount : ℚ) : ℚ :=
  let newPrice := par.currentPrice - dropAmount
  let newTriggered := triggeredAt (table par) newPrice
  if newTriggered.length = 0 then 0
  else
    let lastNew := lastRow newTriggered
    let newTotalOunces := lastNew.totalOunces
    let newTotalLots := lastNew.cumulativeLots
    let newAvgEntry := sumPxL newTriggered / newTotalLots
    toFixed 2 ((newPrice - newAvgEntry) * newTotalOunces * 100)

def stopOutLevel : ℚ := 1 / 2

def equityAt (par : Params) (p : ℚ) : ℚ :=
  let tr := triggeredAt (table par) p
  let lastAt := lastRow tr
  let totalLotsAt := lastAt.cumulativeLots
  let avgEntryAt := sumPxL tr / totalLotsAt
  par.balanceUSC + (p - avgEntryAt) * lastAt.totalOunces * 100

def usedMarginAt (par : Params) (p : ℚ) : ℚ :=
  let lastAt := lastRow (triggeredAt (table par) p)
  p * lastAt.totalOunces / par.leverage * 100

def stopOutHolds (par : Params) (p : ℚ) : Prop :=
  equityAt par p ≤ usedMarginAt par p * stopOutLevel

instance (par : Params) (p : ℚ) : Decidable (stopOutHolds par p) := by
  unfold stopOutHolds; infer_instance

/-- The bisection loop of the variant's inline `marginCallPrice` IIFE
(`part_000`, lines 242-275); the loop state is `(low, high, resultPrice)`. -/
def mcGo (par : Params) : ℕ → ℚ → ℚ → ℚ → ℚ
  | 0, _low, _high, res => res
  | n + 1, low, high, res =>
    let mid := (low + high) / 2
    if (triggeredAt (table par) mid).length = 0 then
      mcGo par n low mid res
    else if stopOutHolds par mid then
      mcGo par n mid high mid
    else
      mcGo par n low mid res

def findMarginCallPrice (par : Params) : ℚ :=
  toFixed 2 (mcGo par 20 0 par.currentPrice 0)

/-- The bisection loop of `findPriceForEquity` (`part_000`, lines 210-240),
searching for the highest price with `equity <= targetEquity`. -/
def feGo (par : Params) (targetEquity : ℚ) : ℕ → ℚ → ℚ → ℚ → ℚ
  | 0, _low, _high, res => res
  | n + 1, low, high, res =>
    let mid := (low + high) / 2
    if (triggeredAt (table par) mid).length = 0 then
      feGo par targetEquity n low mid res
    else if equityAt par mid ≤ targetEquity then
      feGo par targetEquity n mid high mid
    else
      feGo par targetEquity n low mid res

def findPriceForEquity (par : Params) (targetEquity : ℚ) : ℚ :=
  toFixed 2 (feGo par targetEquity 20 0 par.currentPrice 0)

def maxSafeDrop (par : Params) : ℚ :=
  toFixed 2 (par.currentPrice - findMarginCallPrice par)

def currentEquity (par : Params) : ℚ :=
  toFixed 2 (par.balanceUSC + currentFloatingPL par)

def riskLevel (par : Params) : RiskLevel :=
  if marginPercent par > 70 then .EXTREME
  else if marginPercent par > 50 then .HIGH
  else if marginPercent par > 30 then .MODERATE
  else .LOW

def riskColor (par : Params) : RiskColor :=
  if marginPercent par > 70 then .red
  else if marginPercent par > 50 then .orange
  else if marginPercent par > 30 then .yellow
  else .green

def equityCurveData (par : Params) : List CurvePoint :=
  let startP := par.currentPrice
  let endP := max 0 (findMarginCallPrice par - 50)
  let stepSize := (startP - endP) / 50
  (List.range 51).map fun (i : ℕ) =>
    let p := startP - (i : ℚ) * stepSize
    let triggeredAtP := triggeredAt (table par) p
    let equityAtP :=
      if 0 < triggeredAtP.length then
        let lastAtP := lastRow triggeredAtP
        let totalLotsAtP := lastAtP.cumulativeLots
        let avgEntryAtP := sumPxL triggeredAtP / totalLotsAtP
        let floatingPLAtP := (p - avgEntryAtP) * lastAtP.totalOunces * 100
        par.balanceUSC + floatingPLAtP
      else
        par.balanceUSC
    { price := p, equity := equityAtP }

/-- The variant's snapshot: the shared fields plus the extra
drawdown-threshold prices and amounts. -/
structure Snap where
  numTriggered : ℕ
  totalLots : ℚ
  totalOunces : ℚ
  usedMargin : ℚ
  notionalUSC : ℚ
  marginPercent : ℚ
  totalPotentialProfit : ℚ
  avgEntryFixed : ℚ
  currentFloatingPL : ℚ
  breakEvenPrice : ℚ
  profitTargetPrice : ℚ
  drop10 : ℚ
  drop25 : ℚ
  drop50 : ℚ
  drop100 : ℚ
  marginCallPrice : ℚ
  dd25Price : ℚ
  dd50Price : ℚ
  dd75Price : ℚ
  dd25Amount : ℚ
  dd50Amount : ℚ
  dd75Amount : ℚ
  maxSafeDrop : ℚ
  riskLevel : RiskLevel
  riskColor : RiskColor
  lowestTriggered : ℚ
  currentEquity : ℚ
  equityCurveData : List CurvePoint

inductive Analysis where
  | noPosition
  | position (s : Snap)

/-- The variant's `analysis` memo (`part_000`, lines 141-359). -/
def analysis (par : Params) : Option Analysis :=
  if (table par).length = 0 then none
  else if numTriggered par = 0 then some .noPosition
  else some (.position
    { numTriggered := numTriggered par
      totalLots := totalLots par
      totalOunces := totalOunces par
      usedMargin := usedMargin par
      notionalUSC := notionalUSC par
      marginPercent := marginPercent par
      totalPotentialProfit := totalPotentialProfit par
      avgEntryFixed := avgEntryFixed par
      currentFloatingPL := currentFloatingPL par
      breakEvenPrice := breakEvenPrice par
      profitTargetPrice := profitTargetPrice par
      drop10 := simulateDrop par 10
      drop25 := simulateDrop par 25
      drop50 := simulateDrop par 50
      drop100 := simulateDrop par 100
      marginCallPrice := findMarginCallPrice par
      dd25Price := findPriceForEquity par (par.balanceUSC * (75 / 100))
      dd50Price := findPriceForEquity par (par.balanceUSC * (50 / 100))
      dd75Price := findPriceForEquity par (par.balanceUSC * (25 / 100))
      dd25Amount := toFixed 2 (par.balanceUSC * (25 / 100))
      dd50Amount := toFixed 2 (par.balanceUSC * (50 / 100))
      dd75Amount := toFixed 2 (par.balanceUSC * (75 / 100))
      maxSafeDrop := maxSafeDrop par
      riskLevel := riskLevel par
      riskColor := riskColor par
      lowestTriggered := (lastTriggered par).levelPrice
      currentEquity := currentEquity par
      equityCurveData := equityCurveData par })

end App2

/-- Filtering a `range`-indexed list by a predicate that is downward closed in
the index yields an initial segment of the list. -/
theorem filter_map_range_of_down (f : ℕ → Row) (Q : Row → Bool) (n : ℕ)
    (hQ : ∀ i j, i ≤ j → j < n → Q (f j) = true → Q (f i) = true) :
    ∃ k, k ≤ n ∧ ((List.range n).map f).filter Q = (List.range k).map f ∧
      (∀ i, i < k → Q (f i) = true) ∧ (∀ i, k ≤ i → i < n → Q (f i) = false) := by
  induction n with
  | zero => exact ⟨0, le_refl 0, by simp, fun i hi => absurd hi (by omega), fun i h1 h2 => absurd h2 (by omega)⟩
  | succ n ih =>
    by_cases hn : Q (f n) = true
    · refine ⟨n + 1, le_refl _, ?_, ?_, ?_⟩
      · have hall : ∀ r ∈ (List.range (n + 1)).map f, Q r = true := by
          intro r hr
          rw [List.mem_map] at hr
          obtain ⟨i, hi, rfl⟩ := hr
          rw [List.mem_range] at hi
          exact hQ i n (by omega) (by omega) hn
        rw [List.filter_eq_self.mpr hall]
      · intro i hi
        exact hQ i n (by omega) (by omega) hn
      · intro i h1 h2
        omega
    · obtain ⟨k, hk, heq, hpos, hneg⟩ := ih fun i j hij hj h => hQ i j hij (by omega) h
      refine ⟨k, by omega, ?_, hpos, ?_⟩
      · rw [List.range_succ, List.map_append, List.filter_append, heq]
        simp only [List.map_cons, List.map_nil, List.filter_cons, List.filter_nil]
        rw [if_neg (by simp [hn])]
        simp
      · intro i h1 h2
        rcases Nat.lt_succ_iff_lt_or_eq.mp h2 with h | h
        · exact hneg i h1 h
        · subst h
          exact Bool.not_eq_true _ ▸ eq_false_of_ne_true hn

namespace App1

theorem table_length (par : Params) : (table par).length = par.levels.toNat := by
  simp [table]

theorem levelPrice_def (par : Params) (i : ℕ) :
    (mkRow par i).levelPrice = toFixed 2 (par.gridStartPrice - i * par.step) := rfl

theorem lotsAtThisLevel_def (par : Params) (i : ℕ) :
    (mkRow par i).lotsAtThisLevel = toFixed 4 par.lotSize := rfl

theorem cumulativeLots_def (par : Params) (i : ℕ) :
    (mkRow par i).cumulativeLots = toFixed 4 (toFixed 4 par.lotSize * ((i : ℚ) + 1)) := rfl

theorem totalOunces_def (par : Params) (i : ℕ) :
    (mkRow par i).totalOunces
      = toFixed 2 (toFixed 4 (toFixed 4 par.lotSize * ((i : ℚ) + 1)) * par.contractSize) := rfl

theorem isTriggered_def (par : Params) (i : ℕ) :
    (mkRow par i).isTriggered = decide (par.currentPrice ≤ (mkRow par i).levelPrice) := rfl

/-- With a nonnegative step the ladder prices are non-increasing in the index. -/
theorem levelPrice_anti (par : Params) (hstep : 0 ≤ par.step) {i j : ℕ} (hij : i ≤ j) :
    (mkRow par j).levelPrice ≤ (mkRow par i).levelPrice := by
  rw [levelPrice_def, levelPrice_def]
  apply toFixed_mono
  have hc : (i : ℚ) ≤ (j : ℚ) := by exact_mod_cast hij
  nlinarith

/-- With a step of at least one cent, consecutive rounded prices drop by at
least one cent. -/
theorem levelPrice_succ_le (par : Params) (hstep : 1 / 100 ≤ par.step) (i : ℕ) :
    (mkRow par (i + 1)).levelPrice ≤ (mkRow par i).levelPrice - 1 / 100 := by
  rw [levelPrice_def, levelPrice_def]
  unfold toFixed
  have key : jsRound ((par.gridStartPrice - (↑(i + 1) : ℚ) * par.step) * 10 ^ 2)
      ≤ jsRound ((par.gridStartPrice - (i : ℚ) * par.step) * 10 ^ 2) - 1 := by
    have harg : (par.gridStartPrice - (↑(i + 1) : ℚ) * par.step) * 10 ^ 2
        = (par.gridStartPrice - (i : ℚ) * par.step) * 10 ^ 2 - par.step * 100 := by
      push_cast
      ring
    rw [harg]
    exact jsRound_sub_le (by linarith)
  have keyQ : ((jsRound ((par.gridStartPrice - (↑(i + 1) : ℚ) * par.step) * 10 ^ 2) : ℚ))
      ≤ (jsRound ((par.gridStartPrice - (i : ℚ) * par.step) * 10 ^ 2) : ℚ) - 1 := by
    exact_mod_cast key
  have h100 : ((10 : ℚ) ^ 2) = 100 := by norm_num
  rw [h100] at keyQ ⊢
  linarith

theorem levelPrice_strictAnti (par : Params) (hstep : 1 / 100 ≤ par.step) {i j : ℕ}
    (hij : i < j) : (mkRow par j).levelPrice < (mkRow par i).levelPrice := by
  have h1 : (mkRow par j).levelPrice ≤ (mkRow par (i + 1)).levelPrice :=
    levelPrice_anti par (by linarith) (by omega)
  have h2 := levelPrice_succ_le par hstep i
  linarith

/-- The stored `isTriggered` flag of a ladder row is the trigger test at the
current price, so the `analysis` filter agrees with `triggeredAt`. -/
theorem triggeredLevels_eq (par : Params) :
    triggeredLevels par = triggeredAt (table par) par.currentPrice := by
  unfold triggeredLevels triggeredAt
  apply List.filter_congr
  intro r hr
  unfold table at hr
  rw [List.mem_map] at hr
  obtain ⟨i, _, rfl⟩ := hr
  rfl

/-- Triggered levels form an initial segment of the ladder (nonnegative step). -/
theorem trigger_decomp (par : Params) (hstep : 0 ≤ par.step) (p : ℚ) :
    ∃ k, k ≤ par.levels.toNat ∧
      triggeredAt (table par) p = (List.range k).map (mkRow par) ∧
      (∀ i, i < k → p ≤ (mkRow par i).levelPrice) ∧
      (∀ i, k ≤ i → i < par.levels.toNat → ¬ p ≤ (mkRow par i).levelPrice) := by
  obtain ⟨k, hk, heq, hpos, hneg⟩ := filter_map_range_of_down (mkRow par)
    (fun r => decide (p ≤ r.levelPrice)) par.levels.toNat
    (fun i j hij hj h => by
      simp only [decide_eq_true_eq] at h ⊢
      exact le_trans h (levelPrice_anti par hstep hij))
  refine ⟨k, hk, heq, fun i hi => ?_, fun i h1 h2 => ?_⟩
  · simpa using hpos i hi
  · simpa using hneg i h1 h2

/-- The number of triggered levels is antitone in the reference price
(for an arbitrary ladder, by weakening of the filter predicate). -/
theorem triggeredAt_length_antitone (tbl : List Row) {p q : ℚ} (hpq : p ≤ q) :
    (triggeredAt tbl q).length ≤ (triggeredAt tbl p).length := by
  unfold triggeredAt
  rw [← List.countP_eq_length_filter, ← List.countP_eq_length_filter]
  apply List.countP_mono_left
  intro r _ h
  simp only [decide_eq_true_eq] at h ⊢
  linarith

end App1

/-- Folding the running sum from `0` equals the list sum of the products. -/
theorem foldl_add_eq_sum (g : Row → ℚ) :
    ∀ (l : List Row) (a : ℚ), l.foldl (fun s r => s + g r) a = a + (l.map g).sum := by
  intro l
  induction l with
  | nil => intro a; simp
  | cons r t ih =>
    intro a
    simp only [List.foldl_cons, List.map_cons, List.sum_cons, ih]
    ring

theorem sum_map_range (g : ℕ → ℚ) (k : ℕ) :
    ((List.range k).map g).sum = ∑ i ∈ Finset.range k, g i := by
  induction k with
  | zero => simp
  | succ n ih => simp [List.range_succ, Finset.sum_range_succ, ih]

theorem lastRow_map_range (f : ℕ → Row) {k : ℕ} (hk : 0 < k) :
    lastRow ((List.range k).map f) = f (k - 1) := by
  obtain ⟨m, rfl⟩ : ∃ m, k = m + 1 := ⟨k - 1, by omega⟩
  unfold lastRow
  rw [List.range_succ, List.map_append]
  simp

namespace App1

theorem sumPxL_eq (l : List Row) :
    sumPxL l = (l.map fun r => r.levelPrice * r.lotsAtThisLevel).sum := by
  unfold sumPxL
  rw [foldl_add_eq_sum]
  ring

/-- With `lotSize` a whole number of cents, the 4-decimal rounding of the lot
quantities is exact. -/
theorem lots_exact (par : Params) (hl : ∃ c : ℕ, par.lotSize = (c : ℚ) / 100) :
    toFixed 4 par.lotSize = par.lotSize := by
  obtain ⟨c, hc⟩ := hl
  apply toFixed_eq_self
  exact ⟨100 * c, by rw [hc]; push_cast; ring⟩

theorem cumulativeLots_exact (par : Params) (hl : ∃ c : ℕ, par.lotSize = (c : ℚ) / 100)
    (i : ℕ) : (mkRow par i).cumulativeLots = par.lotSize * ((i : ℚ) + 1) := by
  rw [cumulativeLots_def, lots_exact par hl]
  obtain ⟨c, hc⟩ := hl
  apply toFixed_eq_self
  exact ⟨100 * c * (i + 1), by rw [hc]; push_cast; ring⟩

theorem totalOunces_exact (par : Params) (hl : ∃ c : ℕ, par.lotSize = (c : ℚ) / 100)
    (hcs : par.contractSize = 1) (i : ℕ) :
    (mkRow par i).totalOunces = par.lotSize * ((i : ℚ) + 1) := by
  have h : (mkRow par i).totalOunces
      = toFixed 2 ((mkRow par i).cumulativeLots * par.contractSize) := rfl
  rw [h, cumulativeLots_exact par hl i, hcs, mul_one]
  obtain ⟨c, hc⟩ := hl
  apply toFixed_eq_self
  exact ⟨c * (i + 1), by rw [hc]; push_cast; ring⟩

theorem lotSize_nonneg (par : Params) (hl : ∃ c : ℕ, par.lotSize = (c : ℚ) / 100) :
    0 ≤ par.lotSize := by
  obtain ⟨c, hc⟩ := hl
  rw [hc]
  positivity

/-- Sum of `price × lots` over the triggered levels, in closed form. -/
theorem sumPxL_triggered (par : Params) (hstep : 0 ≤ par.step)
    (hl : ∃ c : ℕ, par.lotSize = (c : ℚ) / 100) (p : ℚ) :
    sumPxL (triggeredAt (table par) p)
      = par.lotSize * ∑ i ∈ Finset.range (triggeredAt (table par) p).length,
          (mkRow par i).levelPrice := by
  obtain ⟨k, _, heq, _, _⟩ := trigger_decomp par hstep p
  rw [heq]
  have hlen : ((List.range k).map (mkRow par)).length = k := by simp
  rw [hlen, sumPxL_eq, List.map_map]
  have : ((List.range k).map fun i => (mkRow par i).levelPrice * (mkRow par i).lotsAtThisLevel).sum
      = ∑ i ∈ Finset.range k, (mkRow par i).levelPrice * (mkRow par i).lotsAtThisLevel :=
    sum_map_range _ k
  rw [show ((fun r => r.levelPrice * r.lotsAtThisLevel) ∘ mkRow par)
      = fun i => (mkRow par i).levelPrice * (mkRow par i).lotsAtThisLevel from rfl, this]
  rw [Finset.mul_sum]
  apply Finset.sum_congr rfl
  intro i _
  rw [lotsAtThisLevel_def, lots_exact par hl]
  ring

/-- Closed form of the solver's equity at price `p` when at least one level is
triggered there. -/
theorem equityAt_closed (par : Params) (hstep : 0 ≤ par.step)
    (hl : ∃ c : ℕ, par.lotSize = (c : ℚ) / 100) (hcs : par.contractSize = 1)
    (p : ℚ) (hk : 0 < (triggeredAt (table par) p).length) :
    equityAt par p = par.balanceUSC +
      (p * (triggeredAt (table par) p).length -
        ∑ i ∈ Finset.range (triggeredAt (table par) p).length, (mkRow par i).levelPrice)
        * par.lotSize * 100 := by
  obtain ⟨k, _, heq, _, _⟩ := trigger_decomp par hstep p
  have hlen : (triggeredAt (table par) p).length = k := by rw [heq]; simp
  rw [hlen] at hk ⊢
  have hsum := sumPxL_triggered par hstep hl p
  rw [hlen] at hsum
  simp only [equityAt]
  rw [heq] at hsum ⊢
  rw [lastRow_map_range _ hk, hsum, cumulativeLots_exact par hl,
    totalOunces_exact par hl hcs]
  have hcast : ((k - 1 : ℕ) : ℚ) + 1 = (k : ℚ) := by
    have : (1 : ℕ) ≤ k := hk
    push_cast [Nat.cast_sub this]
    ring
  rw [hcast]
  rcases eq_or_ne par.lotSize 0 with h0 | h0
  · rw [h0]
    ring_nf
  · have hkQ : (k : ℚ) ≠ 0 := by
      have : (0 : ℚ) < (k : ℚ) := by exact_mod_cast hk
      linarith
    field_simp
    ring

/-- Closed form of the solver's used margin at price `p` when at least one
level is triggered there. -/
theorem usedMarginAt_closed (par : Params) (hstep : 0 ≤ par.step)
    (hl : ∃ c : ℕ, par.lotSize = (c : ℚ) / 100) (hcs : par.contractSize = 1)
    (p : ℚ) (hk : 0 < (triggeredAt (table par) p).length) :
    usedMarginAt par p
      = p * (par.lotSize * (triggeredAt (table par) p).length) / par.leverage * 100 := by
  obtain ⟨k, _, heq, _, _⟩ := trigger_decomp par hstep p
  have hlen : (triggeredAt (table par) p).length = k := by rw [heq]; simp
  rw [hlen] at hk ⊢
  simp only [usedMarginAt]
  rw [heq, lastRow_map_range _ hk, totalOunces_exact par hl hcs]
  have hcast : ((k - 1 : ℕ) : ℚ) + 1 = (k : ℚ) := by
    have : (1 : ℕ) ≤ k := hk
    push_cast [Nat.cast_sub this]
    ring
  rw [hcast]

end App1

namespace App1

/-- Under a nonnegative step, exact cent-multiple lots, unit contract size and
leverage at least 1, the stop-out condition is downward closed in price on
`[0, currentPrice]`: once it holds at a price it holds at every lower
nonnegative price.  This is the monotonicity the bisection relies on. -/
theorem stopOut_anti (par : Params) (hstep : 0 ≤ par.step)
    (hl : ∃ c : ℕ, par.lotSize = (c : ℚ) / 100) (hcs : par.contractSize = 1)
    (hlev : 1 ≤ par.leverage)
    (htrig : 0 < (triggeredAt (table par) par.currentPrice).length)
    {p q : ℚ} (hp0 : 0 ≤ p) (hpq : p ≤ q) (hqc : q ≤ par.currentPrice)
    (hq : stopOutHolds par q) : stopOutHolds par p := by
  have hkq : 0 < (triggeredAt (table par) q).length :=
    lt_of_lt_of_le htrig (triggeredAt_length_antitone _ hqc)
  have hkp : 0 < (triggeredAt (table par) p).length :=
    lt_of_lt_of_le hkq (triggeredAt_length_antitone _ hpq)
  have hkk : (triggeredAt (table par) q).length ≤ (triggeredAt (table par) p).length :=
    triggeredAt_length_antitone _ hpq
  obtain ⟨k', _, heq', hpos', _⟩ := trigger_decomp par hstep p
  have hk'eq : (triggeredAt (table par) p).length = k' := by rw [heq']; simp
  have hPp : ∀ i, i < (triggeredAt (table par) p).length → p ≤ (mkRow par i).levelPrice := by
    intro i hi
    exact hpos' i (hk'eq ▸ hi)
  set kp := (triggeredAt (table par) p).length
  set kq := (triggeredAt (table par) q).length
  set Sp := ∑ i ∈ Finset.range kp, (mkRow par i).levelPrice with hSp
  set Sq := ∑ i ∈ Finset.range kq, (mkRow par i).levelPrice with hSq
  have hsum : p * ((kp : ℚ) - (kq : ℚ)) ≤ Sp - Sq := by
    rw [hSp, hSq, ← Finset.sum_Ico_eq_sub _ hkk]
    have hb := Finset.card_nsmul_le_sum (Finset.Ico kq kp)
      (fun i => (mkRow par i).levelPrice) p
      (fun i hi => hPp i (Finset.mem_Ico.mp hi).2)
    rw [Nat.card_Ico, nsmul_eq_mul] at hb
    have hcard : ((kp - kq : ℕ) : ℚ) = (kp : ℚ) - (kq : ℚ) := by
      push_cast [Nat.cast_sub hkk]
      ring
    calc p * ((kp : ℚ) - (kq : ℚ)) = ((kp - kq : ℕ) : ℚ) * p := by rw [hcard]; ring
      _ ≤ _ := hb
  unfold stopOutHolds stopOutLevel at hq ⊢
  rw [equityAt_closed par hstep hl hcs q hkq, usedMarginAt_closed par hstep hl hcs q hkq,
    ← hSq] at hq
  rw [equityAt_closed par hstep hl hcs p hkp, usedMarginAt_closed par hstep hl hcs p hkp,
    ← hSp]
  have hL : 0 ≤ par.lotSize := lotSize_nonneg par hl
  have hlv : (0 : ℚ) < par.leverage := lt_of_lt_of_le one_pos hlev
  have hqrw : q * (par.lotSize * (kq : ℚ)) / par.leverage * 100 * (1 / 2)
      = q * (par.lotSize * (kq : ℚ)) * 50 / par.leverage := by ring
  have hprw : p * (par.lotSize * (kp : ℚ)) / par.leverage * 100 * (1 / 2)
      = p * (par.lotSize * (kp : ℚ)) * 50 / par.leverage := by ring
  rw [hqrw, le_div_iff hlv] at hq
  rw [hprw, le_div_iff hlv]
  have hkq0 : (0 : ℚ) ≤ (kq : ℚ) := by positivity
  have hU : (0 : ℚ) ≤ q - p := by linarith
  have hΔ : (0 : ℚ) ≤ (kp : ℚ) - (kq : ℚ) := by
    have : ((kq : ℚ)) ≤ (kp : ℚ) := by exact_mod_cast hkk
    linarith
  have hD : (0 : ℚ) ≤ Sp - Sq - p * ((kp : ℚ) - (kq : ℚ)) := by linarith
  have hLlv : (0 : ℚ) ≤ par.lotSize * par.leverage := by positivity
  have hlv50 : (0 : ℚ) ≤ 100 * par.leverage - 50 := by linarith
  have hLkqU : (0 : ℚ) ≤ par.lotSize * ((kq : ℚ) * (q - p)) := by positivity
  have hLpΔ : (0 : ℚ) ≤ (par.lotSize * p) * ((kp : ℚ) - (kq : ℚ)) := by
    exact mul_nonneg (mul_nonneg hL hp0) hΔ
  nlinarith [hq, mul_nonneg hD hLlv, mul_nonneg hlv50 hLkqU, hLpΔ,
    mul_nonneg hD hLlv, mul_nonneg (mul_nonneg hL hp0) hΔ]

end App1

namespace App1

theorem mcGo_succ (par : Params) (n : ℕ) (low high res : ℚ) :
    mcGo par (n + 1) low high res =
      if (triggeredAt (table par) ((low + high) / 2)).length = 0 then
        mcGo par n low ((low + high) / 2) res
      else if stopOutHolds par ((low + high) / 2) then
        mcGo par n ((low + high) / 2) high ((low + high) / 2)
      else
        mcGo par n low ((low + high) / 2) res := rfl

/-- Bisection invariant: starting from a bracket with the stop-out condition
holding at `low` and failing at `high`, the loop returns its final `low`,
the bracket stays inside `[0, currentPrice]`, keeps the condition at the left
end and its negation at the right end, and halves in width each iteration. -/
theorem mcGo_invariant (par : Params)
    (htrig : 0 < (triggeredAt (table par) par.currentPrice).length) :
    ∀ (n : ℕ) (low high res : ℚ), 0 ≤ low → high ≤ par.currentPrice → low ≤ high →
      res = low → stopOutHolds par low → ¬ stopOutHolds par high →
      ∃ l2 h2, mcGo par n low high res = l2 ∧ 0 ≤ l2 ∧ h2 ≤ par.currentPrice ∧
        l2 ≤ h2 ∧ stopOutHolds par l2 ∧ ¬ stopOutHolds par h2 ∧
        h2 - l2 = (high - low) / 2 ^ n := by
  intro n
  induction n with
  | zero =>
    intro low high res h0 hh hlh hres hsl hsh
    refine ⟨low, high, ?_, h0, hh, hlh, hsl, hsh, by norm_num⟩
    rw [show mcGo par 0 low high res = res from rfl, hres]
  | succ n ih =>
    intro low high res h0 hh hlh hres hsl hsh
    have hmid0 : 0 ≤ (low + high) / 2 := by linarith
    have hmid1 : low ≤ (low + high) / 2 := by linarith
    have hmid2 : (low + high) / 2 ≤ high := by linarith
    have hmidc : (low + high) / 2 ≤ par.currentPrice := by linarith
    have hne : ¬ (triggeredAt (table par) ((low + high) / 2)).length = 0 := by
      have := triggeredAt_length_antitone (table par) hmidc
      omega
    by_cases hmid : stopOutHolds par ((low + high) / 2)
    · have hrw : mcGo par (n + 1) low high res
          = mcGo par n ((low + high) / 2) high ((low + high) / 2) := by
        rw [mcGo_succ, if_neg hne, if_pos hmid]
      obtain ⟨l2, h2, hr, a1, a2, a3, a4, a5, hw⟩ :=
        ih ((low + high) / 2) high ((low + high) / 2) hmid0 hh hmid2 rfl hmid hsh
      refine ⟨l2, h2, by rw [hrw, hr], a1, a2, a3, a4, a5, ?_⟩
      rw [hw, pow_succ]
      field_simp
      ring
    · have hrw : mcGo par (n + 1) low high res
          = mcGo par n low ((low + high) / 2) res := by
        rw [mcGo_succ, if_neg hne, if_neg hmid]
      obtain ⟨l2, h2, hr, a1, a2, a3, a4, a5, hw⟩ :=
        ih low ((low + high) / 2) res h0 hmidc hmid1 hres hsl hmid
      refine ⟨l2, h2, by rw [hrw, hr], a1, a2, a3, a4, a5, ?_⟩
      rw [hw, pow_succ]
      field_simp
      ring

/-- The raw bisection result always stays within `[0, high]`
(no correctness hypotheses needed). -/
theorem mcGo_mem (par : Params) :
    ∀ (n : ℕ) (low high res : ℚ), 0 ≤ res → res ≤ low → low ≤ high →
      0 ≤ mcGo par n low high res ∧ mcGo par n low high res ≤ high := by
  intro n
  induction n with
  | zero =>
    intro low high res h1 h2 h3
    exact ⟨h1, le_trans h2 h3⟩
  | succ n ih =>
    intro low high res h1 h2 h3
    have hmid1 : low ≤ (low + high) / 2 := by linarith
    have hmid2 : (low + high) / 2 ≤ high := by linarith
    by_cases hlen : (triggeredAt (table par) ((low + high) / 2)).length = 0
    · have hrw : mcGo par (n + 1) low high res
          = mcGo par n low ((low + high) / 2) res := by
        rw [mcGo_succ, if_pos hlen]
      rw [hrw]
      obtain ⟨b1, b2⟩ := ih low ((low + high) / 2) res h1 h2 hmid1
      exact ⟨b1, le_trans b2 hmid2⟩
    · by_cases hcond : stopOutHolds par ((low + high) / 2)
      · have hrw : mcGo par (n + 1) low high res
            = mcGo par n ((low + high) / 2) high ((low + high) / 2) := by
          rw [mcGo_succ, if_neg hlen, if_pos hcond]
        rw [hrw]
        exact ih ((low + high) / 2) high ((low + high) / 2)
          (le_trans (le_trans h1 h2) hmid1) (le_refl _) hmid2
      · have hrw : mcGo par (n + 1) low high res
            = mcGo par n low ((low + high) / 2) res := by
          rw [mcGo_succ, if_neg hlen, if_neg hcond]
        rw [hrw]
        obtain ⟨b1, b2⟩ := ih low ((low + high) / 2) res h1 h2 hmid1
        exact ⟨b1, le_trans b2 hmid2⟩

end App1

/-- Default parameter set of the application (`useState` initial values). -/
def dpar : Params :=
  { gridStartPrice := 2650, currentPrice := 2600, step := 5, lotSize := 1 / 10,
    levels := 20, tp := 5, balanceUSC := 10000, leverage := 2000, contractSize := 1 }

/-- C1 (amended).  For a nonnegative step, a lot size that is a whole number
of hundredths, unit contract size, leverage at least 1, a current price in
`[0, 5000]`, at least one level triggered at the current price, and a
scenario bracketed by the search (stop-out already holds at price 0 and does
not yet hold at the current price): the price returned by
`findMarginCallPrice` satisfies the stop-out inequality
`equity ≤ 0.5 × usedMargin` at some price within one cent of it, and the
inequality fails at `marginCallPrice + ε` for every `ε` greater than one cent
that stays within the searched interval (`marginCallPrice + ε ≤ currentPrice`). -/
theorem claim1_amended (par : Params) (hstep : 0 ≤ par.step)
    (hl : ∃ c : ℕ, par.lotSize = (c : ℚ) / 100) (hcs : par.contractSize = 1)
    (hlev : 1 ≤ par.leverage)
    (hcp0 : 0 ≤ par.currentPrice) (hcp : par.currentPrice ≤ 5000)
    (htrig : 0 < (App1.triggeredAt (App1.table par) par.currentPrice).length)
    (h0 : App1.stopOutHolds par 0)
    (hc : ¬ App1.stopOutHolds par par.currentPrice) :
    (∃ p0, |App1.findMarginCallPrice par - p0| ≤ 1 / 100 ∧ App1.stopOutHolds par p0) ∧
    ∀ ε, 1 / 100 < ε → App1.findMarginCallPrice par + ε ≤ par.currentPrice →
      ¬ App1.stopOutHolds par (App1.findMarginCallPrice par + ε) := by
  obtain ⟨l2, h2, hr, hl0, hh2c, hl2h2, hsl, hsh, hw⟩ :=
    App1.mcGo_invariant par htrig 20 0 par.currentPrice 0
      (le_refl 0) (le_refl _) hcp0 rfl h0 hc
  have hmcp : App1.findMarginCallPrice par = toFixed 2 l2 := by
    unfold App1.findMarginCallPrice
    rw [hr]
  have habs : |toFixed 2 l2 - l2| ≤ 1 / 200 := by
    have h1 := abs_toFixed_sub 2 l2
    have h2' : (1 : ℚ) / (2 * 10 ^ 2) = 1 / 200 := by norm_num
    rwa [h2'] at h1
  have habs1 := abs_le.mp habs
  constructor
  · refine ⟨l2, ?_, hsl⟩
    rw [hmcp, abs_le]
    constructor <;> linarith [habs1.1, habs1.2]
  · intro ε hε hle hcontra
    have hwidth : h2 - l2 ≤ 1 / 200 := by
      rw [hw]
      have hd : (par.currentPrice - 0) / 2 ^ 20 ≤ 5000 / 2 ^ 20 := by
        gcongr
        linarith
      have : (5000 : ℚ) / 2 ^ 20 ≤ 1 / 200 := by norm_num
      linarith
    have hh2le : h2 ≤ App1.findMarginCallPrice par + ε := by
      rw [hmcp]
      linarith [habs1.1]
    have hh20 : 0 ≤ h2 := le_trans hl0 hl2h2
    exact hsh (App1.stopOut_anti par hstep hl hcs hlev htrig hh20 hh2le hle hcontra)

/-- Evaluation rule: the rounded value of a nonnegative argument is the
integer `m` whenever `x + 1/2` lies in `[m, m+1)`. -/
theorem jsRound_eq_of_nonneg {x : ℚ} {m : ℤ} (hx : 0 ≤ x)
    (h1 : (m : ℚ) ≤ x + 1 / 2) (h2 : x + 1 / 2 < m + 1) : jsRound x = m := by
  unfold jsRound
  rw [if_neg (not_lt.mpr hx), round_eq]
  exact Int.floor_eq_iff.mpr ⟨h1, h2⟩

/-- Evaluation rule for `toFixed` on a nonnegative argument. -/
theorem toFixed_eq_of {d : ℕ} {x : ℚ} {m : ℤ} (hx : 0 ≤ x)
    (h1 : (m : ℚ) ≤ x * 10 ^ d + 1 / 2) (h2 : x * 10 ^ d + 1 / 2 < m + 1) :
    toFixed d x = m / 10 ^ d := by
  unfold toFixed
  rw [jsRound_eq_of_nonneg (by positivity) h1 h2]

/-- Default curve point used for out-of-range indexing. -/
def dPoint : CurvePoint := { price := 0, equity := 0 }

theorem getD_map_range {α : Type} (f : ℕ → α) (d : α) {i n : ℕ} (h : i < n) :
    ((List.range n).map f).getD i d = f i := by
  rw [List.getD_eq_getElem?_getD]
  simp [List.getElem?_range, h]

namespace App1

/-- If the stop-out condition holds throughout `[0, currentPrice]` and some
level is triggered at the current price, every bisection step takes the
"margin call here" branch, so the lower bound climbs towards `currentPrice`. -/
theorem mcGo_all_true (par : Params)
    (htrig : 0 < (triggeredAt (table par) par.currentPrice).length)
    (hstop : ∀ p, 0 ≤ p → p ≤ par.currentPrice → stopOutHolds par p) :
    ∀ (n : ℕ) (low res : ℚ), 0 ≤ low → low ≤ par.currentPrice →
      mcGo par (n + 1) low par.currentPrice res
        = par.currentPrice - (par.currentPrice - low) / 2 ^ (n + 1) := by
  intro n
  induction n with
  | zero =>
    intro low res h0 hc
    have hmid0 : 0 ≤ (low + par.currentPrice) / 2 := by linarith
    have hmidc : (low + par.currentPrice) / 2 ≤ par.currentPrice := by linarith
    have hne : ¬ (triggeredAt (table par) ((low + par.currentPrice) / 2)).length = 0 := by
      have := triggeredAt_length_antitone (table par) hmidc
      omega
    rw [mcGo_succ, if_neg hne, if_pos (hstop _ hmid0 hmidc)]
    show (low + par.currentPrice) / 2 = _
    ring
  | succ n ih =>
    intro low res h0 hc
    have hmid0 : 0 ≤ (low + par.currentPrice) / 2 := by linarith
    have hmidc : (low + par.currentPrice) / 2 ≤ par.currentPrice := by linarith
    have hne : ¬ (triggeredAt (table par) ((low + par.currentPrice) / 2)).length = 0 := by
      have := triggeredAt_length_antitone (table par) hmidc
      omega
    rw [mcGo_succ, if_neg hne, if_pos (hstop _ hmid0 hmidc)]
    rw [ih ((low + par.currentPrice) / 2) ((low + par.currentPrice) / 2) hmid0 hmidc]
    rw [pow_succ]
    field_simp
    ring

/-- If the stop-out condition fails at every price the search can visit, the
result value is never written and the initial `marginCallPrice = 0` survives. -/
theorem mcGo_none (par : Params) (a b : ℚ)
    (h : ∀ p, a ≤ p → p ≤ b → ¬ stopOutHolds par p) :
    ∀ (n : ℕ) (low high res : ℚ), a ≤ low → low ≤ b → a ≤ high → high ≤ b →
      mcGo par n low high res = res := by
  intro n
  induction n with
  | zero =>
    intro low high res _ _ _ _
    rfl
  | succ n ih =>
    intro low high res h1 h2 h3 h4
    have hm1 : a ≤ (low + high) / 2 := by linarith
    have hm2 : (low + high) / 2 ≤ b := by linarith
    by_cases hlen : (triggeredAt (table par) ((low + high) / 2)).length = 0
    · rw [mcGo_succ, if_pos hlen]
      exact ih low ((low + high) / 2) res h1 h2 hm1 hm2
    · rw [mcGo_succ, if_neg hlen, if_neg (h _ hm1 hm2)]
      exact ih low ((low + high) / 2) res h1 h2 hm1 hm2

end App1

theorem toFixed_mul_pow_int (d : ℕ) (x : ℚ) : ∃ m : ℤ, toFixed d x * 10 ^ d = m := by
  refine ⟨jsRound (x * 10 ^ d), ?_⟩
  unfold toFixed
  field_simp

theorem toFixed_nonneg (d : ℕ) {x : ℚ} (hx : 0 ≤ x) : 0 ≤ toFixed d x := by
  have h0 : toFixed d (0 : ℚ) = 0 := toFixed_eq_self ⟨0, by norm_num⟩
  have := toFixed_mono d hx
  rwa [h0] at this

namespace App1

/-- The 4-decimal rounding in `cumulativeLots` is exact, because the rounded
`lotsAtThisLevel` already has at most four decimal places. -/
theorem cumulativeLots_eq (par : Params) (i : ℕ) :
    (mkRow par i).cumulativeLots = toFixed 4 par.lotSize * ((i : ℚ) + 1) := by
  rw [cumulativeLots_def]
  obtain ⟨m, hm⟩ := toFixed_mul_pow_int 4 par.lotSize
  apply toFixed_eq_self
  refine ⟨m * (i + 1), ?_⟩
  push_cast
  linear_combination ((i : ℚ) + 1) * hm

theorem lastRow_singleton (r : Row) : lastRow [r] = r := rfl

theorem sumPxL_singleton (r : Row) : sumPxL [r] = r.levelPrice * r.lotsAtThisLevel := by
  unfold sumPxL
  simp

theorem triggeredAt_singleton (r : Row) (p : ℚ) :
    triggeredAt [r] p = if p ≤ r.levelPrice then [r] else [] := by
  unfold triggeredAt
  rcases le_or_lt p r.levelPrice with h | h
  · rw [if_pos h]
    simp [List.filter_cons, h]
  · rw [if_neg (not_le.mpr h)]
    simp [List.filter_cons, not_le.mpr h]

theorem equityAt_singleton (par : Params) (r : Row) (p : ℚ)
    (h : triggeredAt (table par) p = [r]) :
    equityAt par p = par.balanceUSC +
      (p - r.levelPrice * r.lotsAtThisLevel / r.cumulativeLots) * r.totalOunces * 100 := by
  simp only [equityAt, h, lastRow_singleton, sumPxL_singleton]

theorem usedMarginAt_singleton (par : Params) (r : Row) (p : ℚ)
    (h : triggeredAt (table par) p = [r]) :
    usedMarginAt par p = p * r.totalOunces / par.leverage * 100 := by
  simp only [usedMarginAt, h, lastRow_singleton]

theorem table_one (par : Params) (h : par.levels = 1) : table par = [mkRow par 0] := by
  unfold table
  rw [h]
  rfl

end App1

/-- Single-level variant of the default parameters, used as a concrete
scenario for instantiating the general theorems. -/
def spar : Params :=
  { gridStartPrice := 2650, currentPrice := 2600, step := 5, lotSize := 1 / 10,
    levels := 1, tp := 5, balanceUSC := 10000, leverage := 2000, contractSize := 1 }

theorem spar_price : (App1.mkRow spar 0).levelPrice = 2650 := by
  rw [App1.levelPrice_def]
  have : spar.gridStartPrice - (0 : ℕ) * spar.step = 2650 := by norm_num [spar]
  rw [this]
  exact toFixed_eq_self ⟨265000, by norm_num⟩

theorem spar_lots : (App1.mkRow spar 0).lotsAtThisLevel = 1 / 10 := by
  rw [App1.lotsAtThisLevel_def]
  have : spar.lotSize = 1 / 10 := rfl
  rw [this]
  exact toFixed_eq_self ⟨1000, by norm_num⟩

theorem spar_cumLots : (App1.mkRow spar 0).cumulativeLots = 1 / 10 := by
  rw [App1.cumulativeLots_eq]
  have : toFixed 4 spar.lotSize = 1 / 10 := by
    show toFixed 4 (1 / 10 : ℚ) = 1 / 10
    exact toFixed_eq_self ⟨1000, by norm_num⟩
  rw [this]
  norm_num

theorem spar_oz : (App1.mkRow spar 0).totalOunces = 1 / 10 := by
  rw [App1.totalOunces_def]
  have h1 : toFixed 4 spar.lotSize = 1 / 10 := by
    show toFixed 4 (1 / 10 : ℚ) = 1 / 10
    exact toFixed_eq_self ⟨1000, by norm_num⟩
  rw [h1]
  have h2 : toFixed 4 ((1 : ℚ) / 10 * ((0 : ℕ) + 1)) = 1 / 10 := by
    have : ((1 : ℚ) / 10 * ((0 : ℕ) + 1)) = 1 / 10 := by norm_num
    rw [this]
    exact toFixed_eq_self ⟨1000, by norm_num⟩
  rw [h2]
  have h3 : ((1 : ℚ) / 10 * spar.contractSize) = 1 / 10 := by norm_num [spar]
  rw [h3]
  exact toFixed_eq_self ⟨10, by norm_num⟩

theorem spar_table : App1.table spar = [App1.mkRow spar 0] :=
  App1.table_one spar rfl

theorem spar_triggeredAt {p : ℚ} (hp : p ≤ 2650) :
    App1.triggeredAt (App1.table spar) p = [App1.mkRow spar 0] := by
  rw [spar_table, App1.triggeredAt_singleton, spar_price, if_pos hp]

theorem spar_trigLen : 0 < (App1.triggeredAt (App1.table spar) spar.currentPrice).length := by
  have : spar.currentPrice = 2600 := rfl
  rw [this, spar_triggeredAt (by norm_num)]
  norm_num

theorem spar_stopOut0 : App1.stopOutHolds spar 0 := by
  unfold App1.stopOutHolds App1.stopOutLevel
  rw [App1.equityAt_singleton spar _ 0 (spar_triggeredAt (by norm_num)),
    App1.usedMarginAt_singleton spar _ 0 (spar_triggeredAt (by norm_num)),
    spar_price, spar_lots, spar_cumLots, spar_oz]
  norm_num [spar]

theorem spar_noStopCp : ¬ App1.stopOutHolds spar spar.currentPrice := by
  unfold App1.stopOutHolds App1.stopOutLevel
  have hcp : spar.currentPrice = 2600 := rfl
  rw [hcp,
    App1.equityAt_singleton spar _ 2600 (spar_triggeredAt (by norm_num)),
    App1.usedMarginAt_singleton spar _ 2600 (spar_triggeredAt (by norm_num)),
    spar_price, spar_lots, spar_cumLots, spar_oz]
  norm_num [spar]

/-- C1 witness: the single-level default scenario satisfies every hypothesis
of the amended solver-correctness theorem, and hence its conclusion. -/
theorem claim1_witness :
    ((0 : ℚ) ≤ spar.step ∧ (∃ c : ℕ, spar.lotSize = (c : ℚ) / 100) ∧
      spar.contractSize = 1 ∧ 1 ≤ spar.leverage ∧
      (0 : ℚ) ≤ spar.currentPrice ∧ spar.currentPrice ≤ 5000 ∧
      0 < (App1.triggeredAt (App1.table spar) spar.currentPrice).length ∧
      App1.stopOutHolds spar 0 ∧ ¬ App1.stopOutHolds spar spar.currentPrice) ∧
    ((∃ p0, |App1.findMarginCallPrice spar - p0| ≤ 1 / 100 ∧ App1.stopOutHolds spar p0) ∧
      ∀ ε, 1 / 100 < ε → App1.findMarginCallPrice spar + ε ≤ spar.currentPrice →
        ¬ App1.stopOutHolds spar (App1.findMarginCallPrice spar + ε)) :=
  ⟨⟨by norm_num [spar], ⟨10, by norm_num [spar]⟩, rfl, by norm_num [spar],
      by norm_num [spar], by norm_num [spar], spar_trigLen, spar_stopOut0, spar_noStopCp⟩,
    claim1_amended spar (by norm_num [spar]) ⟨10, by norm_num [spar]⟩ rfl
      (by norm_num [spar]) (by norm_num [spar]) (by norm_num [spar])
      spar_trigLen spar_stopOut0 spar_noStopCp⟩

/-- Single-level default ladder with a large negative balance. -/
def cpar1 : Params :=
  { gridStartPrice := 2650, currentPrice := 2600, step := 5, lotSize := 1 / 10,
    levels := 1, tp := 5, balanceUSC := -1000000000, leverage := 2000, contractSize := 1 }

theorem cpar1_row : App1.mkRow cpar1 0 = App1.mkRow spar 0 := rfl

theorem cpar1_triggeredAt {p : ℚ} (hp : p ≤ 2650) :
    App1.triggeredAt (App1.table cpar1) p = [App1.mkRow spar 0] := by
  rw [App1.table_one cpar1 rfl, cpar1_row, App1.triggeredAt_singleton, spar_price, if_pos hp]

theorem cpar1_trigLen : 0 < (App1.triggeredAt (App1.table cpar1) cpar1.currentPrice).length := by
  have hcp : cpar1.currentPrice = 2600 := rfl
  rw [hcp, cpar1_triggeredAt (by norm_num)]
  norm_num

theorem cpar1_stopAll : ∀ p, 0 ≤ p → p ≤ cpar1.currentPrice → App1.stopOutHolds cpar1 p := by
  intro p h0 hc
  have hc' : p ≤ 2600 := hc
  unfold App1.stopOutHolds App1.stopOutLevel
  rw [App1.equityAt_singleton cpar1 _ p (cpar1_triggeredAt (by linarith)),
    App1.usedMarginAt_singleton cpar1 _ p (cpar1_triggeredAt (by linarith)),
    spar_price, spar_lots, spar_cumLots, spar_oz]
  have hb : cpar1.balanceUSC = -1000000000 := rfl
  have hlv : cpar1.leverage = 2000 := rfl
  rw [hb, hlv]
  have e1 : ((2650 : ℚ) * (1 / 10) / (1 / 10)) = 2650 := by norm_num
  rw [e1]
  nlinarith

theorem cpar1_mc : App1.findMarginCallPrice cpar1 = 2600 := by
  unfold App1.findMarginCallPrice
  have h20 : App1.mcGo cpar1 (19 + 1) 0 cpar1.currentPrice 0
      = cpar1.currentPrice - (cpar1.currentPrice - 0) / 2 ^ (19 + 1) :=
    App1.mcGo_all_true cpar1 cpar1_trigLen cpar1_stopAll 19 0 0 (le_refl 0)
      (by show (0 : ℚ) ≤ 2600; norm_num)
  have hcp : cpar1.currentPrice = 2600 := rfl
  rw [show (20 : ℕ) = 19 + 1 from rfl, h20, hcp]
  have := toFixed_eq_of (d := 2) (x := 2600 - (2600 - 0) / 2 ^ (19 + 1)) (m := 260000)
    (by norm_num) (by norm_num) (by norm_num)
  rw [this]
  norm_num

/-- C1 counterexample.  As universally stated the claim is false: in the
single-level default ladder with balance `-10^9` USC at least one level is
triggered, the search returns `2600.00`, and the stop-out inequality still
holds at `2600.00 + 1` — one dollar above the returned price — because the
account is already stopped out at every price, so the claimed failure of the
inequality above `marginCallPrice + ε` does not occur. -/
theorem claim1_counterexample :
    ¬ ((∃ p0, |App1.findMarginCallPrice cpar1 - p0| ≤ 1 / 100 ∧
          App1.stopOutHolds cpar1 p0) ∧
        ∀ ε, 1 / 100 < ε →
          ¬ App1.stopOutHolds cpar1 (App1.findMarginCallPrice cpar1 + ε)) := by
  intro h
  apply h.2 1 (by norm_num)
  rw [cpar1_mc]
  unfold App1.stopOutHolds App1.stopOutLevel
  rw [App1.equityAt_singleton cpar1 _ (2600 + 1) (cpar1_triggeredAt (by norm_num)),
    App1.usedMarginAt_singleton cpar1 _ (2600 + 1) (cpar1_triggeredAt (by norm_num)),
    spar_price, spar_lots, spar_cumLots, spar_oz]
  have hb : cpar1.balanceUSC = -1000000000 := rfl
  have hlv : cpar1.leverage = 2000 := rfl
  rw [hb, hlv]
  norm_num

namespace App1

theorem table_getD (par : Params) {j : ℕ} (h : j < (table par).length) :
    (table par).getD j dRow = mkRow par j := by
  unfold table at h ⊢
  rw [List.length_map, List.length_range] at h
  exact getD_map_range _ _ h

/-- The ladder invariant claimed by the spec: strictly descending prices,
non-decreasing cumulative lots, and the triggered rows forming a prefix in
index order. -/
def ladderInvariant (par : Params) : Prop :=
  (∀ j, j < (table par).length → ∀ i, i < j →
      ((table par).getD j dRow).levelPrice < ((table par).getD i dRow).levelPrice) ∧
  (∀ j, j < (table par).length → ∀ i, i ≤ j →
      ((table par).getD i dRow).cumulativeLots ≤ ((table par).getD j dRow).cumulativeLots) ∧
  (∀ j, j < (table par).length → ∀ i, i ≤ j →
      ((table par).getD j dRow).isTriggered = true →
      ((table par).getD i dRow).isTriggered = true)

end App1

/-- C2 (amended).  With a step of at least one cent (so the two-decimal price
rounding cannot merge neighbouring levels) and a nonnegative lot size, the
generated ladder is strictly ordered by descending price, `cumulativeLots` is
monotonically non-decreasing with the index, and the triggered levels form a
prefix of the ladder in index order. -/
theorem claim2_amended (par : Params) (hstep : 1 / 100 ≤ par.step)
    (hlot : 0 ≤ par.lotSize) : App1.ladderInvariant par := by
  refine ⟨?_, ?_, ?_⟩
  · intro j hj i hij
    rw [App1.table_getD par hj, App1.table_getD par (lt_trans hij hj)]
    exact App1.levelPrice_strictAnti par hstep hij
  · intro j hj i hij
    rw [App1.table_getD par hj, App1.table_getD par (lt_of_le_of_lt hij hj)]
    rw [App1.cumulativeLots_eq, App1.cumulativeLots_eq]
    have hL : 0 ≤ toFixed 4 par.lotSize := toFixed_nonneg 4 hlot
    have hc : ((i : ℚ) + 1) ≤ ((j : ℚ) + 1) := by
      have : (i : ℚ) ≤ (j : ℚ) := by exact_mod_cast hij
      linarith
    exact mul_le_mul_of_nonneg_left hc hL
  · intro j hj i hij htr
    rw [App1.table_getD par hj] at htr
    rw [App1.table_getD par (lt_of_le_of_lt hij hj)]
    rw [App1.isTriggered_def] at htr ⊢
    rw [decide_eq_true_eq] at htr ⊢
    exact le_trans htr (App1.levelPrice_anti par (by linarith) hij)

/-- Parameters with a sub-cent step and a negative lot size. -/
def cpar2 : Params :=
  { gridStartPrice := 2650, currentPrice := 2600, step := 1 / 1000, lotSize := -(1 / 10),
    levels := 2, tp := 5, balanceUSC := 10000, leverage := 2000, contractSize := 1 }

/-- C2 counterexample.  The claim as stated (any `step > 0`) is false: with
`step = 0.001` the two-decimal rounding maps the first two level prices both
to `2650.00`, so the ladder is not strictly descending (and with the negative
lot size of this input `cumulativeLots` is strictly decreasing as well). -/
theorem claim2_counterexample : ¬ (0 < cpar2.step → App1.ladderInvariant cpar2) := by
  intro h
  have hinv := h (by norm_num [cpar2])
  have hlen : (App1.table cpar2).length = 2 := rfl
  have hstrict := hinv.1 1 (by rw [hlen]; norm_num) 0 (by norm_num)
  rw [App1.table_getD cpar2 (by rw [hlen]; norm_num),
    App1.table_getD cpar2 (by rw [hlen]; norm_num)] at hstrict
  have hP0 : (App1.mkRow cpar2 0).levelPrice = 2650 := by
    rw [App1.levelPrice_def]
    have : cpar2.gridStartPrice - (0 : ℕ) * cpar2.step = 2650 := by norm_num [cpar2]
    rw [this]
    exact toFixed_eq_self ⟨265000, by norm_num⟩
  have hP1 : (App1.mkRow cpar2 1).levelPrice = 2650 := by
    rw [App1.levelPrice_def]
    have : cpar2.gridStartPrice - (1 : ℕ) * cpar2.step = 2649999 / 1000 := by
      norm_num [cpar2]
    rw [this]
    have := toFixed_eq_of (d := 2) (x := 2649999 / 1000) (m := 265000)
      (by norm_num) (by norm_num) (by norm_num)
    rw [this]
    norm_num
  rw [hP0, hP1] at hstrict
  exact lt_irrefl _ hstrict

/-- C2 witness: the single-step default ladder satisfies the amended
hypotheses and hence the ladder invariant. -/
theorem claim2_witness :
    ((1 : ℚ) / 100 ≤ spar.step ∧ (0 : ℚ) ≤ spar.lotSize) ∧ App1.ladderInvariant spar :=
  ⟨⟨by norm_num [spar], by norm_num [spar]⟩,
    claim2_amended spar (by norm_num [spar]) (by norm_num [spar])⟩

/-- C3 (amended).  With a positive level count, a nonnegative step, and the
current price strictly above the *rounded* start price (the level-0 ladder
price, `toFixed 2 startPrice`), no level is triggered and the aggregate is
the `noPositions` sentinel. -/
theorem claim3_amended (par : Params) (hn : 0 < par.levels) (hstep : 0 ≤ par.step)
    (hcp : toFixed 2 par.gridStartPrice < par.currentPrice) :
    App1.numTriggered par = 0 ∧ App1.analysis par = some App1.Analysis.noPosition := by
  have hP0 : (App1.mkRow par 0).levelPrice = toFixed 2 par.gridStartPrice := by
    rw [App1.levelPrice_def]
    have : par.gridStartPrice - (0 : ℕ) * par.step = par.gridStartPrice := by
      push_cast
      ring
    rw [this]
  have hzero : App1.triggeredLevels par = [] := by
    rw [App1.triggeredLevels_eq]
    unfold App1.triggeredAt
    rw [List.filter_eq_nil_iff]
    intro r hr
    unfold App1.table at hr
    rw [List.mem_map] at hr
    obtain ⟨i, _, rfl⟩ := hr
    have hle : (App1.mkRow par i).levelPrice ≤ toFixed 2 par.gridStartPrice := by
      rw [← hP0]
      exact App1.levelPrice_anti par hstep (Nat.zero_le i)
    simp only [decide_eq_true_eq]
    push_neg
    linarith
  have hnum : App1.numTriggered par = 0 := by
    unfold App1.numTriggered
    rw [hzero]
    rfl
  refine ⟨hnum, ?_⟩
  unfold App1.analysis
  rw [if_neg ?_, if_pos hnum]
  have := App1.table_length par
  omega

/-- Start price `2649.996`, current price `2649.998`: the current price is
above the start price but not above the rounded level-0 price `2650.00`. -/
def cpar3 : Params :=
  { gridStartPrice := 2649996 / 1000, currentPrice := 2649998 / 1000, step := 5,
    lotSize := 1 / 10, levels := 1, tp := 5, balanceUSC := 10000, leverage := 2000,
    contractSize := 1 }

/-- C3 counterexample.  As stated the claim is false: with
`startPrice = 2649.996` and `currentPrice = 2649.998 > startPrice` the
two-decimal rounding lifts the level-0 price to `2650.00`, so the level is
triggered and `numTriggered = 1`, not `0`. -/
theorem claim3_counterexample :
    ¬ (0 < cpar3.levels → cpar3.gridStartPrice < cpar3.currentPrice →
        App1.numTriggered cpar3 = 0 ∧
        App1.analysis cpar3 = some App1.Analysis.noPosition) := by
  intro h
  have h2 := h (by norm_num [cpar3]) (by norm_num [cpar3])
  have hP0 : (App1.mkRow cpar3 0).levelPrice = 2650 := by
    rw [App1.levelPrice_def]
    have : cpar3.gridStartPrice - (0 : ℕ) * cpar3.step = 2649996 / 1000 := by
      norm_num [cpar3]
    rw [this]
    have := toFixed_eq_of (d := 2) (x := 2649996 / 1000) (m := 265000)
      (by norm_num) (by norm_num) (by norm_num)
    rw [this]
    norm_num
  have hnum : App1.numTriggered cpar3 = 1 := by
    unfold App1.numTriggered
    rw [App1.triggeredLevels_eq, App1.table_one cpar3 rfl, App1.triggeredAt_singleton,
      hP0, if_pos (by norm_num [cpar3])]
    rfl
  rw [h2.1] at hnum
  exact absurd hnum (by norm_num)

/-- Parameters whose current price sits above the whole ladder. -/
def wpar3 : Params :=
  { gridStartPrice := 2650, currentPrice := 2700, step := 5, lotSize := 1 / 10,
    levels := 1, tp := 5, balanceUSC := 10000, leverage := 2000, contractSize := 1 }

/-- C3 witness: a current price above the rounded start price yields zero
triggered levels and the `noPositions` sentinel. -/
theorem claim3_witness :
    ((0 : ℤ) < wpar3.levels ∧ (0 : ℚ) ≤ wpar3.step ∧
      toFixed 2 wpar3.gridStartPrice < wpar3.currentPrice) ∧
    App1.numTriggered wpar3 = 0 ∧
    App1.analysis wpar3 = some App1.Analysis.noPosition := by
  have hfix : toFixed 2 wpar3.gridStartPrice = 2650 := by
    show toFixed 2 (2650 : ℚ) = 2650
    exact toFixed_eq_self ⟨265000, by norm_num⟩
  refine ⟨⟨by norm_num [wpar3], by norm_num [wpar3], ?_⟩,
    claim3_amended wpar3 (by norm_num [wpar3]) (by norm_num [wpar3]) ?_⟩
  · rw [hfix]
    norm_num [wpar3]
  · rw [hfix]
    norm_num [wpar3]

theorem spar_numTriggered : App1.numTriggered spar = 1 := by
  unfold App1.numTriggered
  rw [App1.triggeredLevels_eq, spar_triggeredAt (show spar.currentPrice ≤ 2650 by norm_num [spar])]
  rfl

/-- C4 (amended).  The aggregate computes `marginPercent` as
`usedMargin / balance × 100` (rounded to cents) whenever `balance ≠ 0`, and
only for `balance` exactly `0` is the denominator replaced by `1`: the
JavaScript `balanceUSC || 1` is a falsiness check, not a floor at 1, so
balances strictly between 0 and 1 (and negative balances) are used as-is. -/
theorem claim4_amended (par : Params) (h : 1 ≤ App1.numTriggered par) :
    (par.balanceUSC ≠ 0 →
      App1.marginPercent par = toFixed 2 (App1.usedMargin par / par.balanceUSC * 100)) ∧
    (par.balanceUSC = 0 →
      App1.marginPercent par = toFixed 2 (App1.usedMargin par * 100)) := by
  constructor
  · intro hb
    unfold App1.marginPercent
    rw [if_neg hb]
  · intro hb
    unfold App1.marginPercent
    rw [if_pos hb]
    norm_num

/-- Single-level default ladder with balance `0.5` USC. -/
def cpar4 : Params :=
  { gridStartPrice := 2650, currentPrice := 2600, step := 5, lotSize := 1 / 10,
    levels := 1, tp := 5, balanceUSC := 1 / 2, leverage := 2000, contractSize := 1 }

theorem cpar4_row : App1.mkRow cpar4 0 = App1.mkRow spar 0 := rfl

theorem cpar4_triggeredAt {p : ℚ} (hp : p ≤ 2650) :
    App1.triggeredAt (App1.table cpar4) p = [App1.mkRow spar 0] := by
  rw [App1.table_one cpar4 rfl, cpar4_row, App1.triggeredAt_singleton, spar_price, if_pos hp]

theorem cpar4_usedMargin : App1.usedMargin cpar4 = 13 := by
  unfold App1.usedMargin App1.currentNotionalUSD App1.totalOunces App1.lastTriggered
  rw [App1.triggeredLevels_eq,
    cpar4_triggeredAt (show cpar4.currentPrice ≤ 2650 by norm_num [cpar4]),
    App1.lastRow_singleton, spar_oz]
  have hcp : cpar4.currentPrice = 2600 := rfl
  have hlv : cpar4.leverage = 2000 := rfl
  rw [hcp, hlv]
  have h1 : toFixed 2 ((2600 : ℚ) * (1 / 10)) = 260 := by
    have : ((2600 : ℚ) * (1 / 10)) = 260 := by norm_num
    rw [this]
    exact toFixed_eq_self ⟨26000, by norm_num⟩
  rw [h1]
  have h2 : ((260 : ℚ) / 2000 * 100) = 13 := by norm_num
  rw [h2]
  exact toFixed_eq_self ⟨1300, by norm_num⟩

theorem cpar4_numTriggered : App1.numTriggered cpar4 = 1 := by
  unfold App1.numTriggered
  rw [App1.triggeredLevels_eq,
    cpar4_triggeredAt (show cpar4.currentPrice ≤ 2650 by norm_num [cpar4])]
  rfl

/-- C4 counterexample.  As stated the claim is false: with `balance = 0.5`
the code divides by `0.5` itself (the `||` fallback only fires at exactly
`0`), giving `marginPercent = 2600.00`, whereas the claimed
`max(balance, 1)` denominator would give `1300.00`. -/
theorem claim4_counterexample :
    ¬ (1 ≤ App1.numTriggered cpar4 →
        App1.marginPercent cpar4
          = toFixed 2 (App1.usedMargin cpar4 / max cpar4.balanceUSC 1 * 100)) := by
  intro h
  have h2 := h (by rw [cpar4_numTriggered])
  have hlhs : App1.marginPercent cpar4 = 2600 := by
    unfold App1.marginPercent
    rw [cpar4_usedMargin, if_neg (show cpar4.balanceUSC ≠ 0 by norm_num [cpar4])]
    have : ((13 : ℚ) / cpar4.balanceUSC * 100) = 2600 := by norm_num [cpar4]
    rw [this]
    exact toFixed_eq_self ⟨260000, by norm_num⟩
  have hrhs : toFixed 2 (App1.usedMargin cpar4 / max cpar4.balanceUSC 1 * 100) = 1300 := by
    rw [cpar4_usedMargin]
    have hmax : max cpar4.balanceUSC 1 = 1 := by
      apply max_eq_right
      norm_num [cpar4]
    rw [hmax]
    have : ((13 : ℚ) / 1 * 100) = 1300 := by norm_num
    rw [this]
    exact toFixed_eq_self ⟨130000, by norm_num⟩
  rw [hlhs, hrhs] at h2
  exact absurd h2 (by norm_num)

/-- C4 witness: with the single-level default scenario (nonzero balance) the
amended description of `marginPercent` holds. -/
theorem claim4_witness :
    1 ≤ App1.numTriggered spar ∧
    ((spar.balanceUSC ≠ 0 →
        App1.marginPercent spar = toFixed 2 (App1.usedMargin spar / spar.balanceUSC * 100)) ∧
      (spar.balanceUSC = 0 →
        App1.marginPercent spar = toFixed 2 (App1.usedMargin spar * 100))) :=
  ⟨by rw [spar_numTriggered], claim4_amended spar (by rw [spar_numTriggered])⟩

/-- C5 (confirmed).  For every snapshot with a position the risk tier is
`EXTREME` iff `marginPercent > 70`, `HIGH` iff `50 < marginPercent ≤ 70`,
`MODERATE` iff `30 < marginPercent ≤ 50`, and `LOW` otherwise; in particular
`marginPercent = 70` yields `HIGH`, not `EXTREME`. -/
theorem claim5_risk_tiers (par : Params) (h : 1 ≤ App1.numTriggered par) :
    (App1.riskLevel par = RiskLevel.EXTREME ↔ 70 < App1.marginPercent par) ∧
    (App1.riskLevel par = RiskLevel.HIGH ↔
      50 < App1.marginPercent par ∧ App1.marginPercent par ≤ 70) ∧
    (App1.riskLevel par = RiskLevel.MODERATE ↔
      30 < App1.marginPercent par ∧ App1.marginPercent par ≤ 50) ∧
    (App1.riskLevel par = RiskLevel.LOW ↔ App1.marginPercent par ≤ 30) ∧
    (App1.marginPercent par = 70 → App1.riskLevel par = RiskLevel.HIGH) := by
  unfold App1.riskLevel
  split_ifs with h1 h2 h3
  · refine ⟨⟨fun _ => h1, fun _ => rfl⟩, ⟨fun hx => ?_, fun hx => absurd h1 (by linarith [hx.2])⟩,
      ⟨fun hx => ?_, fun hx => absurd h1 (by linarith [hx.2])⟩,
      ⟨fun hx => ?_, fun hx => absurd h1 (by linarith)⟩, fun hm => absurd h1 (by rw [hm]; norm_num)⟩
    all_goals exact absurd hx (by simp)
  · refine ⟨⟨fun hx => ?_, fun hx => absurd hx (by linarith)⟩, ⟨fun _ => ⟨h2, by linarith⟩, fun _ => rfl⟩,
      ⟨fun hx => ?_, fun hx => absurd h2 (by linarith [hx.2])⟩,
      ⟨fun hx => ?_, fun hx => absurd h2 (by linarith)⟩, fun _ => rfl⟩
    all_goals exact absurd hx (by simp)
  · refine ⟨⟨fun hx => ?_, fun hx => absurd hx (by linarith)⟩,
      ⟨fun hx => ?_, fun hx => absurd hx.1 (by linarith)⟩,
      ⟨fun _ => ⟨h3, by linarith⟩, fun _ => rfl⟩,
      ⟨fun hx => ?_, fun hx => absurd h3 (by linarith)⟩,
      fun hm => absurd h2 (by rw [hm]; norm_num)⟩
    all_goals exact absurd hx (by simp)
  · refine ⟨⟨fun hx => ?_, fun hx => absurd hx (by linarith)⟩,
      ⟨fun hx => ?_, fun hx => absurd hx.1 (by linarith)⟩,
      ⟨fun hx => ?_, fun hx => absurd hx.1 (by linarith)⟩,
      ⟨fun _ => by linarith, fun _ => rfl⟩,
      fun hm => absurd h2 (by rw [hm]; norm_num)⟩
    all_goals exact absurd hx (by simp)

/-- C5 witness: the single-level default scenario has a position, so the
tier characterisation applies to it. -/
theorem claim5_witness :
    1 ≤ App1.numTriggered spar ∧
    ((App1.riskLevel spar = RiskLevel.EXTREME ↔ 70 < App1.marginPercent spar) ∧
      (App1.riskLevel spar = RiskLevel.HIGH ↔
        50 < App1.marginPercent spar ∧ App1.marginPercent spar ≤ 70) ∧
      (App1.riskLevel spar = RiskLevel.MODERATE ↔
        30 < App1.marginPercent spar ∧ App1.marginPercent spar ≤ 50) ∧
      (App1.riskLevel spar = RiskLevel.LOW ↔ App1.marginPercent spar ≤ 30) ∧
      (App1.marginPercent spar = 70 → App1.riskLevel spar = RiskLevel.HIGH)) :=
  ⟨by rw [spar_numTriggered], claim5_risk_tiers spar (by rw [spar_numTriggered])⟩

/-- C6 (amended).  For `levelCount ≤ 0` the generator produces the empty
ladder and the aggregate returns *no analysis at all* (the `null` early
return) — a distinct outcome from the `noPositions` sentinel that is used
when levels exist but none is triggered — and no error is raised. -/
theorem claim6_amended (par : Params) (h : par.levels ≤ 0) :
    App1.table par = [] ∧ App1.analysis par = none := by
  have htab : App1.table par = [] := by
    unfold App1.table
    have h0 : par.levels.toNat = 0 := by omega
    rw [h0]
    rfl
  refine ⟨htab, ?_⟩
  unfold App1.analysis
  rw [if_pos (by rw [htab]; rfl)]

/-- Zero-level parameter set. -/
def zpar : Params :=
  { gridStartPrice := 2650, currentPrice := 2600, step := 5, lotSize := 1 / 10,
    levels := 0, tp := 5, balanceUSC := 10000, leverage := 2000, contractSize := 1 }

/-- C6 counterexample.  As stated the claim is false: at `levelCount = 0` the
aggregate is `null` (`none`), not the `noPositions` sentinel object used when
no level is triggered. -/
theorem claim6_counterexample :
    ¬ (zpar.levels ≤ 0 → App1.table zpar = [] ∧
        App1.analysis zpar = some App1.Analysis.noPosition) := by
  intro h
  have h2 := (h (by norm_num [zpar])).2
  have hnone : App1.analysis zpar = none := (by rfl : App1.analysis zpar = none)
  rw [hnone] at h2
  exact Option.noConfusion h2

/-- Negative-level parameter set. -/
def mpar : Params :=
  { gridStartPrice := 2650, currentPrice := 2600, step := 5, lotSize := 1 / 10,
    levels := -3, tp := 5, balanceUSC := 10000, leverage := 2000, contractSize := 1 }

/-- C6 witness: a negative level count yields an empty ladder and no
analysis. -/
theorem claim6_witness :
    mpar.levels ≤ 0 ∧ App1.table mpar = [] ∧ App1.analysis mpar = none :=
  ⟨by norm_num [mpar], claim6_amended mpar (by norm_num [mpar])⟩

/-- C7 (confirmed).  For a fixed ladder, the number of triggered levels at
the lower of two reference prices is at least the number at the higher one:
`numTriggered` is non-decreasing as the reference price decreases. -/
theorem claim7_numTriggered_antitone (tbl : List Row) (p1 p2 : ℚ) (h : p2 ≤ p1) :
    (App1.triggeredAt tbl p1).length ≤ (App1.triggeredAt tbl p2).length :=
  App1.triggeredAt_length_antitone tbl h

/-- C7 witness: on the single-level default ladder, dropping the reference
price from 2600 to 2500 does not decrease the triggered count. -/
theorem claim7_witness :
    (2500 : ℚ) ≤ 2600 ∧
    (App1.triggeredAt (App1.table spar) 2600).length
      ≤ (App1.triggeredAt (App1.table spar) 2500).length :=
  ⟨by norm_num, claim7_numTriggered_antitone (App1.table spar) 2600 2500 (by norm_num)⟩

namespace App1

theorem sumPxL_map_range (par : Params) (k : ℕ) :
    sumPxL ((List.range k).map (mkRow par))
      = toFixed 4 par.lotSize * ∑ i ∈ Finset.range k, (mkRow par i).levelPrice := by
  rw [sumPxL_eq, List.map_map]
  rw [show ((fun r => r.levelPrice * r.lotsAtThisLevel) ∘ mkRow par)
      = fun i => (mkRow par i).levelPrice * (mkRow par i).lotsAtThisLevel from rfl]
  rw [sum_map_range, Finset.mul_sum]
  apply Finset.sum_congr rfl
  intro i _
  rw [lotsAtThisLevel_def]
  ring

end App1

/-- C8 (amended).  With a nonnegative step and a positive rounded lot size,
the raw size-weighted average entry over the triggered levels lies within the
closed interval between the smallest and the largest triggered level
prices. -/
theorem claim8_amended (par : Params) (hstep : 0 ≤ par.step)
    (hl4 : 0 < toFixed 4 par.lotSize)
    (hne : App1.triggeredLevels par ≠ []) :
    ∃ rmin ∈ App1.triggeredLevels par, ∃ rmax ∈ App1.triggeredLevels par,
      (∀ r ∈ App1.triggeredLevels par,
          rmin.levelPrice ≤ r.levelPrice ∧ r.levelPrice ≤ rmax.levelPrice) ∧
      rmin.levelPrice ≤ App1.avgEntry par ∧ App1.avgEntry par ≤ rmax.levelPrice := by
  obtain ⟨k, hkN, heq, hpos, hneg⟩ := App1.trigger_decomp par hstep par.currentPrice
  have htl : App1.triggeredLevels par = (List.range k).map (App1.mkRow par) := by
    rw [App1.triggeredLevels_eq, heq]
  have hk : 0 < k := by
    rcases Nat.eq_zero_or_pos k with h0 | h
    · rw [h0] at htl
      simp at htl
      exact absurd htl hne
    · exact h
  have hkQ : (0 : ℚ) < (k : ℚ) := by exact_mod_cast hk
  have havg : App1.avgEntry par
      = (∑ i ∈ Finset.range k, (App1.mkRow par i).levelPrice) / k := by
    unfold App1.avgEntry App1.totalLots App1.lastTriggered
    rw [htl, lastRow_map_range _ hk, App1.sumPxL_map_range, App1.cumulativeLots_eq]
    have hcast : ((k - 1 : ℕ) : ℚ) + 1 = (k : ℚ) := by
      have : (1 : ℕ) ≤ k := hk
      push_cast [Nat.cast_sub this]
      ring
    rw [hcast]
    have hL := ne_of_gt hl4
    have hkne := ne_of_gt hkQ
    field_simp
    ring
  refine ⟨App1.mkRow par (k - 1), ?_, App1.mkRow par 0, ?_, ?_, ?_, ?_⟩
  · rw [htl, List.mem_map]
    exact ⟨k - 1, by rw [List.mem_range]; omega, rfl⟩
  · rw [htl, List.mem_map]
    exact ⟨0, by rw [List.mem_range]; omega, rfl⟩
  · intro r hr
    rw [htl, List.mem_map] at hr
    obtain ⟨i, hi, rfl⟩ := hr
    rw [List.mem_range] at hi
    exact ⟨App1.levelPrice_anti par hstep (by omega),
      App1.levelPrice_anti par hstep (Nat.zero_le i)⟩
  · rw [havg, le_div_iff hkQ]
    have hb := Finset.card_nsmul_le_sum (Finset.range k)
      (fun i => (App1.mkRow par i).levelPrice) ((App1.mkRow par (k - 1)).levelPrice)
      (fun i hi => App1.levelPrice_anti par hstep
        (by rw [Finset.mem_range] at hi; omega))
    rw [Finset.card_range, nsmul_eq_mul] at hb
    linarith [hb]
  · rw [havg, div_le_iff hkQ]
    have hb := Finset.sum_le_card_nsmul (Finset.range k)
      (fun i => (App1.mkRow par i).levelPrice) ((App1.mkRow par 0).levelPrice)
      (fun i _ => App1.levelPrice_anti par hstep (Nat.zero_le i))
    rw [Finset.card_range, nsmul_eq_mul] at hb
    linarith [hb]

/-- Ascending (negative-step) three-level ladder with the current price
inside the grid. -/
def cpar8 : Params :=
  { gridStartPrice := 2650, currentPrice := 2652, step := -5, lotSize := 1 / 10,
    levels := 3, tp := 5, balanceUSC := 10000, leverage := 2000, contractSize := 1 }

theorem cpar8_table :
    App1.table cpar8 = [App1.mkRow cpar8 0, App1.mkRow cpar8 1, App1.mkRow cpar8 2] := rfl

theorem cpar8_P0 : (App1.mkRow cpar8 0).levelPrice = 2650 := by
  rw [App1.levelPrice_def]
  have : cpar8.gridStartPrice - (0 : ℕ) * cpar8.step = 2650 := by norm_num [cpar8]
  rw [this]
  exact toFixed_eq_self ⟨265000, by norm_num⟩

theorem cpar8_P1 : (App1.mkRow cpar8 1).levelPrice = 2655 := by
  rw [App1.levelPrice_def]
  have : cpar8.gridStartPrice - (1 : ℕ) * cpar8.step = 2655 := by norm_num [cpar8]
  rw [this]
  exact toFixed_eq_self ⟨265500, by norm_num⟩

theorem cpar8_P2 : (App1.mkRow cpar8 2).levelPrice = 2660 := by
  rw [App1.levelPrice_def]
  have : cpar8.gridStartPrice - (2 : ℕ) * cpar8.step = 2660 := by norm_num [cpar8]
  rw [this]
  exact toFixed_eq_self ⟨266000, by norm_num⟩

theorem cpar8_trig :
    App1.triggeredLevels cpar8 = [App1.mkRow cpar8 1, App1.mkRow cpar8 2] := by
  unfold App1.triggeredLevels
  rw [cpar8_table]
  have h0 : (App1.mkRow cpar8 0).isTriggered = false := by
    rw [App1.isTriggered_def, cpar8_P0]
    exact decide_eq_false (by norm_num [cpar8])
  have h1 : (App1.mkRow cpar8 1).isTriggered = true := by
    rw [App1.isTriggered_def, cpar8_P1]
    exact decide_eq_true (by norm_num [cpar8])
  have h2 : (App1.mkRow cpar8 2).isTriggered = true := by
    rw [App1.isTriggered_def, cpar8_P2]
    exact decide_eq_true (by norm_num [cpar8])
  simp [List.filter_cons, List.filter_nil, h0, h1, h2]

theorem cpar8_lots1 : (App1.mkRow cpar8 1).lotsAtThisLevel = 1 / 10 := by
  rw [App1.lotsAtThisLevel_def]
  have : cpar8.lotSize = 1 / 10 := rfl
  rw [this]
  exact toFixed_eq_self ⟨1000, by norm_num⟩

theorem cpar8_lots2 : (App1.mkRow cpar8 2).lotsAtThisLevel = 1 / 10 := by
  rw [App1.lotsAtThisLevel_def]
  have : cpar8.lotSize = 1 / 10 := rfl
  rw [this]
  exact toFixed_eq_self ⟨1000, by norm_num⟩

theorem cpar8_avg : App1.avgEntry cpar8 = 5315 / 3 := by
  unfold App1.avgEntry App1.totalLots App1.lastTriggered
  rw [cpar8_trig]
  have hlast : lastRow [App1.mkRow cpar8 1, App1.mkRow cpar8 2] = App1.mkRow cpar8 2 := rfl
  rw [hlast, App1.cumulativeLots_eq]
  have hL : toFixed 4 cpar8.lotSize = 1 / 10 := by
    show toFixed 4 (1 / 10 : ℚ) = 1 / 10
    exact toFixed_eq_self ⟨1000, by norm_num⟩
  rw [hL]
  have hsum : App1.sumPxL [App1.mkRow cpar8 1, App1.mkRow cpar8 2] = 1063 / 2 := by
    unfold App1.sumPxL
    simp only [List.foldl_cons, List.foldl_nil]
    rw [cpar8_P1, cpar8_P2, cpar8_lots1, cpar8_lots2]
    norm_num
  rw [hsum]
  norm_num

/-- C8 counterexample.  As stated the claim is false: with a negative step
the triggered levels are not a prefix, so `totalLots` (the last triggered
row's cumulative lots, `0.3`) exceeds the lots actually triggered (`0.2`) and
the "average" `531.5 / 0.3 ≈ 1771.67` falls below the smallest triggered
price `2655`. -/
theorem claim8_counterexample :
    ¬ (App1.triggeredLevels cpar8 ≠ [] →
        ∃ rmin ∈ App1.triggeredLevels cpar8, ∃ rmax ∈ App1.triggeredLevels cpar8,
          (∀ r ∈ App1.triggeredLevels cpar8,
              rmin.levelPrice ≤ r.levelPrice ∧ r.levelPrice ≤ rmax.levelPrice) ∧
          rmin.levelPrice ≤ App1.avgEntry cpar8 ∧
          App1.avgEntry cpar8 ≤ rmax.levelPrice) := by
  intro h
  obtain ⟨rmin, hmem, rmax, hmem2, hbd, hlo, hhi⟩ :=
    h (by rw [cpar8_trig]; simp)
  rw [cpar8_trig] at hmem
  rw [cpar8_avg] at hlo
  rcases List.mem_cons.mp hmem with h1 | h1
  · rw [h1, cpar8_P1] at hlo
    norm_num at hlo
  · rw [List.mem_singleton.mp h1, cpar8_P2] at hlo
    norm_num at hlo

/-- C8 witness: on the single-level default scenario the weighted average
entry lies between the extreme triggered prices. -/
theorem claim8_witness :
    ((0 : ℚ) ≤ spar.step ∧ 0 < toFixed 4 spar.lotSize ∧
      App1.triggeredLevels spar ≠ []) ∧
    (∃ rmin ∈ App1.triggeredLevels spar, ∃ rmax ∈ App1.triggeredLevels spar,
      (∀ r ∈ App1.triggeredLevels spar,
          rmin.levelPrice ≤ r.levelPrice ∧ r.levelPrice ≤ rmax.levelPrice) ∧
      rmin.levelPrice ≤ App1.avgEntry spar ∧ App1.avgEntry spar ≤ rmax.levelPrice) := by
  have h4 : toFixed 4 spar.lotSize = 1 / 10 := by
    show toFixed 4 (1 / 10 : ℚ) = 1 / 10
    exact toFixed_eq_self ⟨1000, by norm_num⟩
  have hne : App1.triggeredLevels spar ≠ [] := by
    rw [App1.triggeredLevels_eq,
      spar_triggeredAt (show spar.currentPrice ≤ 2650 by norm_num [spar])]
    simp
  exact ⟨⟨by norm_num [spar], by rw [h4]; norm_num, hne⟩,
    claim8_amended spar (by norm_num [spar]) (by rw [h4]; norm_num) hne⟩

namespace App1

theorem equityCurveData_length (par : Params) : (equityCurveData par).length = 51 := by
  simp only [equityCurveData]
  rw [List.length_map, List.length_range]

theorem equityCurveData_price (par : Params) {i : ℕ} (h : i < 51) :
    ((equityCurveData par).getD i dPoint).price
      = par.currentPrice
        - i * ((par.currentPrice - max 0 (findMarginCallPrice par - 50)) / 50) := by
  simp only [equityCurveData]
  rw [getD_map_range _ _ h]

end App1

/-- C9 (amended).  For parameter sets with at least one triggered level and a
positive current price, the equity-curve sampler returns exactly `51` points
(`steps + 1` with `steps = 50`), evenly spaced in price with point `i` at
`currentPrice - i·Δ` where `Δ = (currentPrice - max(0, marginCallPrice-50))/50`,
point 0 at `currentPrice`, the last point at `max(0, marginCallPrice - 50)`,
and the prices strictly decreasing in the index.  (For a non-positive current
price the spacing can degenerate to zero or reverse, so the ordering clause
needs `currentPrice > 0`.) -/
theorem claim9_amended (par : Params)
    (htrig : App1.triggeredLevels par ≠ [])
    (hcp : 0 < par.currentPrice) :
    (App1.equityCurveData par).length = 51 ∧
    (∀ i, i < 51 → ((App1.equityCurveData par).getD i dPoint).price
        = par.currentPrice
          - i * ((par.currentPrice - max 0 (App1.findMarginCallPrice par - 50)) / 50)) ∧
    ((App1.equityCurveData par).getD 0 dPoint).price = par.currentPrice ∧
    ((App1.equityCurveData par).getD 50 dPoint).price
        = max 0 (App1.findMarginCallPrice par - 50) ∧
    (∀ i j, i < j → j < 51 →
      ((App1.equityCurveData par).getD j dPoint).price
        < ((App1.equityCurveData par).getD i dPoint).price) := by
  have hstep : 0 < (par.currentPrice - max 0 (App1.findMarginCallPrice par - 50)) / 50 := by
    have hmem := App1.mcGo_mem par 20 0 par.currentPrice 0 (le_refl 0) (le_refl 0) hcp.le
    have hfix : App1.findMarginCallPrice par
        ≤ App1.mcGo par 20 0 par.currentPrice 0 + 1 / 200 := by
      have := toFixed_sub_le 2 (App1.mcGo par 20 0 par.currentPrice 0)
      unfold App1.findMarginCallPrice
      norm_num at this ⊢
      linarith
    have hlt : max 0 (App1.findMarginCallPrice par - 50) < par.currentPrice := by
      rw [max_lt_iff]
      exact ⟨hcp, by linarith [hmem.2]⟩
    linarith
  refine ⟨App1.equityCurveData_length par, fun i hi => App1.equityCurveData_price par hi,
    ?_, ?_, ?_⟩
  · rw [App1.equityCurveData_price par (by norm_num)]
    norm_num
  · rw [App1.equityCurveData_price par (by norm_num)]
    push_cast
    ring
  · intro i j hij hj
    rw [App1.equityCurveData_price par hj, App1.equityCurveData_price par (by omega)]
    have hc : (i : ℚ) < (j : ℚ) := by exact_mod_cast hij
    nlinarith

/-- Parameters with a negative current price below a grid that starts at 0. -/
def cpar9 : Params :=
  { gridStartPrice := 0, currentPrice := -5, step := 5, lotSize := 1 / 10,
    levels := 1, tp := 5, balanceUSC := 10000, leverage := 2000, contractSize := 1 }

theorem cpar9_price : (App1.mkRow cpar9 0).levelPrice = 0 := by
  rw [App1.levelPrice_def]
  have : cpar9.gridStartPrice - (0 : ℕ) * cpar9.step = 0 := by norm_num [cpar9]
  rw [this]
  exact toFixed_eq_self ⟨0, by norm_num⟩

theorem cpar9_triggeredAt {p : ℚ} (hp : p ≤ 0) :
    App1.triggeredAt (App1.table cpar9) p = [App1.mkRow cpar9 0] := by
  rw [App1.table_one cpar9 rfl, App1.triggeredAt_singleton, cpar9_price, if_pos hp]

theorem cpar9_noStop : ∀ p, (-5 : ℚ) ≤ p → p ≤ 0 → ¬ App1.stopOutHolds cpar9 p := by
  intro p h1 h2
  unfold App1.stopOutHolds App1.stopOutLevel
  rw [App1.equityAt_singleton cpar9 _ p (cpar9_triggeredAt h2),
    App1.usedMarginAt_singleton cpar9 _ p (cpar9_triggeredAt h2),
    cpar9_price]
  have hlots : (App1.mkRow cpar9 0).lotsAtThisLevel = 1 / 10 := by
    rw [App1.lotsAtThisLevel_def]
    show toFixed 4 (1 / 10 : ℚ) = 1 / 10
    exact toFixed_eq_self ⟨1000, by norm_num⟩
  have hcum : (App1.mkRow cpar9 0).cumulativeLots = 1 / 10 := by
    rw [App1.cumulativeLots_eq]
    have : toFixed 4 cpar9.lotSize = 1 / 10 := by
      show toFixed 4 (1 / 10 : ℚ) = 1 / 10
      exact toFixed_eq_self ⟨1000, by norm_num⟩
    rw [this]
    norm_num
  have hoz : (App1.mkRow cpar9 0).totalOunces = 1 / 10 := by
    rw [App1.totalOunces_def]
    have e1 : toFixed 4 cpar9.lotSize = 1 / 10 := by
      show toFixed 4 (1 / 10 : ℚ) = 1 / 10
      exact toFixed_eq_self ⟨1000, by norm_num⟩
    rw [e1]
    have e2 : toFixed 4 ((1 : ℚ) / 10 * ((0 : ℕ) + 1)) = 1 / 10 := by
      have : ((1 : ℚ) / 10 * ((0 : ℕ) + 1)) = 1 / 10 := by norm_num
      rw [this]
      exact toFixed_eq_self ⟨1000, by norm_num⟩
    rw [e2]
    have e3 : ((1 : ℚ) / 10 * cpar9.contractSize) = 1 / 10 := by norm_num [cpar9]
    rw [e3]
    exact toFixed_eq_self ⟨10, by norm_num⟩
  rw [hlots, hcum, hoz]
  have hb : cpar9.balanceUSC = 10000 := rfl
  have hlv : cpar9.leverage = 2000 := rfl
  rw [hb, hlv]
  intro hcontra
  nlinarith

theorem cpar9_mc : App1.findMarginCallPrice cpar9 = 0 := by
  unfold App1.findMarginCallPrice
  have h0 : App1.mcGo cpar9 20 0 cpar9.currentPrice 0 = 0 := by
    apply App1.mcGo_none cpar9 (-5) 0 cpar9_noStop 20 0 cpar9.currentPrice 0
      (by norm_num) (by norm_num) <;> norm_num [cpar9]
  rw [h0]
  exact toFixed_eq_self ⟨0, by norm_num⟩

/-- C9 counterexample.  As stated the claim is false: with a negative current
price (`-5`) below a grid starting at `0`, a level is triggered, but the
sampler's end price `max(0, marginCallPrice - 50) = 0` lies *above* the
current price, so the step is negative and the 51 points are ordered by
increasing price — the second point price `-4.9` exceeds the first `-5`. -/
theorem claim9_counterexample :
    ¬ (App1.triggeredLevels cpar9 ≠ [] →
        (App1.equityCurveData cpar9).length = 51 ∧
        (∀ i j, i < j → j < 51 →
          ((App1.equityCurveData cpar9).getD j dPoint).price
            < ((App1.equityCurveData cpar9).getD i dPoint).price)) := by
  intro h
  have htrig : App1.triggeredLevels cpar9 ≠ [] := by
    rw [App1.triggeredLevels_eq, cpar9_triggeredAt (show cpar9.currentPrice ≤ 0 by norm_num [cpar9])]
    simp
  have hlt := (h htrig).2 0 1 (by norm_num) (by norm_num)
  rw [App1.equityCurveData_price cpar9 (by norm_num),
    App1.equityCurveData_price cpar9 (by norm_num), cpar9_mc] at hlt
  norm_num [cpar9] at hlt

/-- C9 witness: the single-level default scenario has a triggered level and a
positive current price, so the sampler produces 51 evenly spaced, strictly
price-decreasing points from `currentPrice` down to
`max(0, marginCallPrice - 50)`. -/
theorem claim9_witness :
    (App1.triggeredLevels spar ≠ [] ∧ (0 : ℚ) < spar.currentPrice) ∧
    ((App1.equityCurveData spar).length = 51 ∧
      (∀ i, i < 51 → ((App1.equityCurveData spar).getD i dPoint).price
          = spar.currentPrice
            - i * ((spar.currentPrice - max 0 (App1.findMarginCallPrice spar - 50)) / 50)) ∧
      ((App1.equityCurveData spar).getD 0 dPoint).price = spar.currentPrice ∧
      ((App1.equityCurveData spar).getD 50 dPoint).price
          = max 0 (App1.findMarginCallPrice spar - 50) ∧
      (∀ i j, i < j → j < 51 →
        ((App1.equityCurveData spar).getD j dPoint).price
          < ((App1.equityCurveData spar).getD i dPoint).price)) := by
  have hne : App1.triggeredLevels spar ≠ [] := by
    rw [App1.triggeredLevels_eq,
      spar_triggeredAt (show spar.currentPrice ≤ 2650 by norm_num [spar])]
    simp
  exact ⟨⟨hne, by norm_num [spar]⟩,
    claim9_amended spar hne (by norm_num [spar])⟩

namespace App2

theorem mcGo2_succ (par : Params) (n : ℕ) (low high res : ℚ) :
    mcGo par (n + 1) low high res =
      if (triggeredAt (table par) ((low + high) / 2)).length = 0 then
        mcGo par n low ((low + high) / 2) res
      else if stopOutHolds par ((low + high) / 2) then
        mcGo par n ((low + high) / 2) high ((low + high) / 2)
      else
        mcGo par n low ((low + high) / 2) res := rfl

end App2

/-- The two entry points' bisection loops agree step by step. -/
theorem mcGo_eq (par : Params) :
    ∀ (n : ℕ) (low high res : ℚ),
      App1.mcGo par n low high res = App2.mcGo par n low high res := by
  intro n
  induction n with
  | zero =>
    intro low high res
    rfl
  | succ n ih =>
    intro low high res
    rw [App1.mcGo_succ, App2.mcGo2_succ]
    by_cases h1 : (App1.triggeredAt (App1.table par) ((low + high) / 2)).length = 0
    · have h2 : (App2.triggeredAt (App2.table par) ((low + high) / 2)).length = 0 := h1
      rw [if_pos h1, if_pos h2, ih]
    · have h2 : ¬ (App2.triggeredAt (App2.table par) ((low + high) / 2)).length = 0 := h1
      rw [if_neg h1, if_neg h2]
      by_cases h3 : App1.stopOutHolds par ((low + high) / 2)
      · have h4 : App2.stopOutHolds par ((low + high) / 2) := h3
        rw [if_pos h3, if_pos h4, ih]
      · have h4 : ¬ App2.stopOutHolds par ((low + high) / 2) := h3
        rw [if_neg h3, if_neg h4, ih]

theorem findMarginCallPrice_eq (par : Params) :
    App1.findMarginCallPrice par = App2.findMarginCallPrice par := by
  unfold App1.findMarginCallPrice App2.findMarginCallPrice
  rw [mcGo_eq]

/-- C10 (confirmed).  On every identical input parameter set the two entry
points compute identical ladders and identical values for every snapshot
field they both produce. -/
theorem claim10_two_apps_agree (par : Params) :
    App1.table par = App2.table par ∧
    App1.numTriggered par = App2.numTriggered par ∧
    App1.totalLots par = App2.totalLots par ∧
    App1.totalOunces par = App2.totalOunces par ∧
    App1.usedMargin par = App2.usedMargin par ∧
    App1.notionalUSC par = App2.notionalUSC par ∧
    App1.marginPercent par = App2.marginPercent par ∧
    App1.totalPotentialProfit par = App2.totalPotentialProfit par ∧
    App1.avgEntryFixed par = App2.avgEntryFixed par ∧
    App1.currentFloatingPL par = App2.currentFloatingPL par ∧
    App1.breakEvenPrice par = App2.breakEvenPrice par ∧
    App1.profitTargetPrice par = App2.profitTargetPrice par ∧
    App1.simulateDrop par 10 = App2.simulateDrop par 10 ∧
    App1.simulateDrop par 25 = App2.simulateDrop par 25 ∧
    App1.simulateDrop par 50 = App2.simulateDrop par 50 ∧
    App1.simulateDrop par 100 = App2.simulateDrop par 100 ∧
    App1.findMarginCallPrice par = App2.findMarginCallPrice par ∧
    App1.maxSafeDrop par = App2.maxSafeDrop par ∧
    App1.riskLevel par = App2.riskLevel par ∧
    App1.currentEquity par = App2.currentEquity par ∧
    App1.equityCurveData par = App2.equityCurveData par := by
  refine ⟨rfl, rfl, rfl, rfl, rfl, rfl, rfl, rfl, rfl, rfl, rfl, rfl, rfl, rfl, rfl, rfl,
    findMarginCallPrice_eq par, ?_, rfl, rfl, ?_⟩
  · unfold App1.maxSafeDrop App2.maxSafeDrop
    rw [findMarginCallPrice_eq]
  · unfold App1.equityCurveData App2.equityCurveData
    rw [findMarginCallPrice_eq]
    rfl
